import Mathlib

/-!
# The console log renderer of `cmd/dagger/logger/console.go`

A shallow embedding of the `Console` writer: one structured log event (a JSON
object decoded into a Go `map[string]interface{}`) is turned into one line of
text carrying `[colour]` markup.

Conventions of the embedding:

* a Go `string` obtained from JSON is valid UTF-8, so it is a Lean `String`;
  `len` is the UTF-8 byte length;
* a Go map is an association list with pairwise distinct keys; the order of
  the list is the order in which this run of `range` visits the entries;
* a Go `panic` is the `Outcome.panic` result, a returned `error` is the text of
  its message;
* what the renderer takes from its surroundings (the `zerolog` globals,
  `json.Decoder`, `time.Parse`, `colorstring`, the sink `Out`, the width of
  `int`) is a field of `Env`; `stdEnv` is the environment of a default build.
-/

namespace Logger

/-! ## Values and events -/

/-- Dynamic values of a Go `interface{}`: what `encoding/json` stores in a
`map[string]interface{}` (`nil`, `bool`, `string`, `float64`, `[]interface{}`,
`map[string]interface{}`) together with `int`, which `formatFields` also
switches on. A finite `float64` is given by its exact rational value. -/
inductive Value where
  | null
  | bool (b : Bool)
  | str (s : String)
  | int (n : Int)
  | float64 (x : ℚ)
  | arr (xs : List Value)
  | obj (kvs : List (String × Value))

/-- A Go `map[string]interface{}`, in the iteration order of this run. -/
abbrev Event := List (String × Value)

/-- Keys of a map are pairwise distinct. -/
def WellFormed (ev : Event) : Prop := (ev.map Prod.fst).Nodup

/-- The map index expression `event[key]`: `none` when the key is absent. -/
def index : Event → String → Option Value
  | [], _ => none
  | (k, v) :: rest, key => if k = key then some v else index rest key

/-- The type assertion `event[key].(string)` with its `ok` flag. -/
def indexString (ev : Event) (key : String) : Option String :=
  match index ev key with
  | some (Value.str s) => some s
  | _ => none

/-! ## Outcomes -/

/-- The result of running Go code that may panic. -/
inductive Outcome (α : Type) where
  | ret (a : α)
  | panic (msg : String)
  deriving DecidableEq, Repr

/-- Sequencing of code that may panic: a panic aborts what follows. -/
def Outcome.bind {α β : Type} (x : Outcome α) (f : α → Outcome β) : Outcome β :=
  match x with
  | Outcome.ret a => f a
  | Outcome.panic m => Outcome.panic m

/-! ## zerolog levels -/

/-- The type `zerolog.Level` (an `int8`). -/
abbrev Level := Int

def DebugLevel : Level := 0
def InfoLevel : Level := 1
def WarnLevel : Level := 2
def ErrorLevel : Level := 3
def FatalLevel : Level := 4
def PanicLevel : Level := 5
def NoLevel : Level := 6
def Disabled : Level := 7
def TraceLevel : Level := -1

/-- The default `zerolog.LevelFieldMarshalFunc`, that is `Level.String`, on the
nine named levels, in the order `ParseLevel` tries them. -/
def levelNames : List (String × Level) :=
  [("trace", TraceLevel), ("debug", DebugLevel), ("info", InfoLevel),
   ("warn", WarnLevel), ("error", ErrorLevel), ("fatal", FatalLevel),
   ("panic", PanicLevel), ("disabled", Disabled), ("", NoLevel)]

/-- Representative of the simple case-folding orbit of a character, for the
orbits that contain an ASCII letter: `A`..`Z` go to lower case, the Kelvin sign
to `k` and the long s to `s`. -/
def foldKey (c : Char) : Char :=
  if c.toNat = 0x212A then 'k'
  else if c.toNat = 0x17F then 's'
  else if 65 ≤ c.toNat ∧ c.toNat ≤ 90 then Char.ofNat (c.toNat + 32)
  else c

/-- The function `strings.EqualFold`, exact whenever one argument is ASCII
(the level names are). -/
def EqualFold (s t : String) : Bool :=
  s.data.map foldKey == t.data.map foldKey

/-- Value of a decimal digit. -/
def digitVal (c : Char) : Option Nat :=
  if 48 ≤ c.toNat ∧ c.toNat ≤ 57 then some (c.toNat - 48) else none

/-- Value of a string of decimal digits read from the left, starting at `acc`. -/
def digitsVal : List Char → Nat → Option Nat
  | [], acc => some acc
  | c :: cs, acc =>
    match digitVal c with
    | some d => digitsVal cs (10 * acc + d)
    | none => none

/-- The syntax accepted by `strconv.Atoi`: an optional sign and at least one
decimal digit. The range check of `int` is left to the caller, which rejects
everything outside `-128..127` anyway. -/
def Atoi (s : String) : Option Int :=
  match s.data with
  | [] => none
  | '-' :: [] => none
  | '+' :: [] => none
  | '-' :: cs => (digitsVal cs 0).map (fun n => - (n : Int))
  | '+' :: cs => (digitsVal cs 0).map (fun n => (n : Int))
  | cs => (digitsVal cs 0).map (fun n => (n : Int))

/-- First level whose name matches, as the `switch` of `ParseLevel` finds it. -/
def matchLevelName (eq : String → String → Bool) (s : String) :
    List (String × Level) → Option Level
  | [] => none
  | (name, l) :: rest => if eq s name then some l else matchLevelName eq s rest

/-- The function `zerolog.ParseLevel`, without its error result (the renderer
discards it). `fold` tells whether the names are compared with
`strings.EqualFold` (recent zerolog) or exactly (older zerolog). A text that
names no level is read as a number; what is not a number in `-128..127` gives
`NoLevel`. -/
def ParseLevel (fold : Bool) (levelStr : String) : Level :=
  match matchLevelName (if fold then EqualFold else fun a b => decide (a = b))
      levelStr levelNames with
  | some l => l
  | none =>
    match Atoi levelStr with
    | none => NoLevel
    | some i => if i > 127 ∨ i < -128 then NoLevel else i

/-! ## Strings -/

/-- UTF-8 encoding of a code point, as Go stores a string. -/
def utf8Encode (c : Nat) : List Nat :=
  if c < 0x80 then [c]
  else if c < 0x800 then [0xC0 + c / 64, 0x80 + c % 64]
  else if c < 0x10000 then [0xE0 + c / 4096, 0x80 + c / 64 % 64, 0x80 + c % 64]
  else [0xF0 + c / 262144, 0x80 + c / 4096 % 64, 0x80 + c / 64 % 64, 0x80 + c % 64]

/-- The conversion `[]byte(text)`. -/
def bytes (text : String) : List Nat :=
  text.data.flatMap (fun c => utf8Encode c.toNat)

/-- The builtin `len` on a string: its number of bytes. -/
def len (text : String) : Nat := (bytes text).length

/-- The predicate `unicode.IsSpace`: the Latin-1 spaces and the code points of
the `White_Space` property. -/
def IsSpace (c : Char) : Bool :=
  let r := c.toNat
  (9 ≤ r && r ≤ 13) || r = 0x20 || r = 0x85 || r = 0xA0 || r = 0x1680 ||
  (0x2000 ≤ r && r ≤ 0x200A) || r = 0x2028 || r = 0x2029 || r = 0x202F ||
  r = 0x205F || r = 0x3000

/-- The function `strings.TrimSpace`: leading and trailing white space removed. -/
def TrimSpace (s : String) : String :=
  String.mk ((s.data.dropWhile IsSpace).reverse.dropWhile IsSpace).reverse

/-- Decimal rendering of an unsigned number (`fmtInt` of package `time`). -/
def fmtInt (v : Nat) : String := Nat.repr v

/-- The verb `%v` (or `%d`) on an `int`. -/
def fmtIntV (v : Int) : String :=
  if v < 0 then "-" ++ Nat.repr (-v).toNat else Nat.repr v.toNat

/-! ## Durations (package `time`) -/

/-- Wrap-around of `int64` arithmetic. -/
def wrapInt64 (x : Int) : Int := (x + 2 ^ 63) % 2 ^ 64 - 2 ^ 63

def Nanosecond : Int := 1
def Microsecond : Int := 1000 * Nanosecond
def Millisecond : Int := 1000 * Microsecond
def Second : Int := 1000 * Millisecond
def minDuration : Int := - 2 ^ 63
def maxDuration : Int := 2 ^ 63 - 1

/-- The conversion `uint64(x)` of an `int64`. -/
def toUint64 (x : Int) : Int := x % 2 ^ 64

/-- Whether `x + x < y`, computed on `uint64` as `lessThanHalf` does. -/
def lessThanHalf (x y : Int) : Bool :=
  (toUint64 x + toUint64 x) % 2 ^ 64 < toUint64 y

/-- The method `Duration.Round`: `d` rounded to the nearest multiple of `m`,
halfway values away from zero, saturating on overflow. -/
def DurationRound (d m : Int) : Int :=
  if m ≤ 0 then d
  else
    let r := Int.tmod d m
    if d < 0 then
      let r := -r
      if lessThanHalf r m then wrapInt64 (d + r)
      else
        let d1 := wrapInt64 (d - m + r)
        if d1 < d then d1 else minDuration
    else
      if lessThanHalf r m then wrapInt64 (d - r)
      else
        let d1 := wrapInt64 (d + m - r)
        if d1 > d then d1 else maxDuration

/-- The loop of `fmtFrac`: `prec` digits of `v` from the right, trailing zeros
skipped; returns the digits written, whether any was, and `v / 10 ^ prec`. -/
def fmtFracLoop : Nat → Nat → Bool → List Char → List Char × Bool × Nat
  | 0, v, print, buf => (buf, print, v)
  | i + 1, v, print, buf =>
    let digit := v % 10
    let print := print || digit != 0
    fmtFracLoop i (v / 10) print (if print then Char.ofNat (digit + 48) :: buf else buf)

/-- The function `fmtFrac`: the fraction of `v / 10 ^ prec` (such as `.5`,
empty when it is zero) and the integer part. -/
def fmtFrac (v prec : Nat) : String × Nat :=
  match fmtFracLoop prec v false [] with
  | (buf, print, v) => (String.mk (if print then '.' :: buf else buf), v)

/-- The method `Duration.String`, such as `72h3m0.5s`, `1.5s`, `100ms`, `0s`. -/
def DurationString (d : Int) : String :=
  let u := (toUint64 (if d < 0 then -d else d)).toNat
  let body :=
    if u < Second.toNat then
      if u = 0 then "0s"
      else if u < Microsecond.toNat then fmtInt u ++ "ns"
      else if u < Millisecond.toNat then
        match fmtFrac u 3 with
        | (frac, v) => fmtInt v ++ frac ++ "µs"
      else
        match fmtFrac u 6 with
        | (frac, v) => fmtInt v ++ frac ++ "ms"
    else
      match fmtFrac u 9 with
      | (frac, v) =>
        let secs := fmtInt (v % 60) ++ frac ++ "s"
        let v := v / 60
        if v > 0 then
          let mins := fmtInt (v % 60) ++ "m"
          let v := v / 60
          if v > 0 then fmtInt v ++ "h" ++ mins ++ secs else mins ++ secs
        else secs
  if d < 0 then "-" ++ body else body

/-! ## Clock times (package `time`) -/

/-- A `time.Time` as far as the `Kitchen` layout shows it: the seconds since the
Unix epoch and the offset east of UTC, in seconds, of its location. -/
structure Time where
  unix : Int
  offset : Int
  deriving DecidableEq, Repr

/-- The call `t.Format(time.Kitchen)`, layout `3:04PM`: the hour on a 12-hour
clock without padding, the minute on two digits, then `AM` or `PM`. -/
def formatKitchen (t : Time) : String :=
  let secs := ((t.unix + t.offset) % 86400).toNat
  let hour := secs / 3600
  let minute := secs % 3600 / 60
  let hr := if hour % 12 = 0 then 12 else hour % 12
  fmtInt hr ++ ":" ++ (if minute < 10 then "0" else "") ++ fmtInt minute ++
    (if hour ≥ 12 then "PM" else "AM")

/-! ## The environment of the renderer -/

/-- Width of the Go type `int` on the platform the program was built for. -/
inductive IntSize where
  | bits32
  | bits64
  deriving DecidableEq, Repr

def IntSize.bits : IntSize → Nat
  | IntSize.bits32 => 32
  | IntSize.bits64 => 64

/-- The conversion `int(h)` of an unsigned value (two's complement wrap-around
at the width of `int`). -/
def toInt (sz : IntSize) (h : Nat) : Int :=
  ((h : Int) + 2 ^ (sz.bits - 1)) % 2 ^ sz.bits - 2 ^ (sz.bits - 1)

/-- What `console.go` reads from outside itself.

* `LevelFieldName` .. `CallerFieldName`: the package variables of `zerolog`
  naming the fields of an event;
* `foldLevelNames`: whether `zerolog.ParseLevel` compares level names with
  `strings.EqualFold` or exactly;
* `timeParse`: `time.Parse(zerolog.TimeFieldFormat, ·)`, the error given by its
  message;
* `jsonDecode`: `json.NewDecoder(bytes.NewReader(p)).Decode(&event)` on an
  empty map, the error given by its message;
* `colorize`: `colorize.Color`, the expansion of the `[colour]` markup;
* `outWrite`: the answer `(n, err)` of `Out.Write` to a byte string, given the
  byte strings it was handed before;
* `intSize`: the width of `int`;
* `float64ToInt64`: the implementation-dependent result of converting to
  `int64` a `float64` whose integer part does not fit. -/
structure Env where
  LevelFieldName : String
  MessageFieldName : String
  TimestampFieldName : String
  ErrorFieldName : String
  CallerFieldName : String
  foldLevelNames : Bool
  timeParse : String → Except String Time
  jsonDecode : List UInt8 → Except String Event
  colorize : String → String
  outWrite : List String → String → Nat × Option String
  intSize : IntSize
  float64ToInt64 : ℚ → Int

/-- The receiver `Console`: `Out` is the sink, given by the byte strings handed
to its `Write` so far, oldest first; `maxLength` is the width hint. -/
structure Console where
  Out : List String
  maxLength : Nat
  deriving DecidableEq, Repr

/-! ## The renderer (`console.go`) -/

/-- The level of an event as `formatLevel` and `formatMessage` compute it:
`DebugLevel` unless the level field is a text, which `ParseLevel` then reads. -/
def eventLevel (env : Env) (event : Event) : Level :=
  match indexString event env.LevelFieldName with
  | some l => ParseLevel env.foldLevelNames l
  | none => DebugLevel

/-- The method `Console.formatLevel`. -/
def formatLevel (env : Env) (event : Event) : String :=
  let level := eventLevel env event
  if level = TraceLevel then "[magenta]TRC[reset]"
  else if level = DebugLevel then "[yellow]DBG[reset]"
  else if level = InfoLevel then "[green]INF[reset]"
  else if level = WarnLevel then "[red]WRN[reset]"
  else if level = ErrorLevel then "[red]ERR[reset]"
  else if level = FatalLevel then "[red]FTL[reset]"
  else if level = PanicLevel then "[red]PNC[reset]"
  else "[bold]???[reset]"

/-- The method `Console.formatTimestamp`; it panics with the parse error when
the timestamp is a text that does not parse. -/
def formatTimestamp (env : Env) (event : Event) : Outcome String :=
  match indexString event env.TimestampFieldName with
  | none => Outcome.ret "???"
  | some ts =>
    match env.timeParse ts with
    | Except.error err => Outcome.panic err
    | Except.ok t => Outcome.ret ("[dark_gray]" ++ formatKitchen t ++ "[reset]")

/-- The text of the message before the emphasis of the level is applied: the
trimmed message, followed by `: ` and the error when that is a non-empty text. -/
def messageBody (env : Env) (event : Event) (message : String) : String :=
  let message := TrimSpace message
  match indexString event env.ErrorFieldName with
  | some err => if err ≠ "" then message ++ ": " ++ err else message
  | none => message

/-- The `switch` of `formatMessage`: the emphasis a level gives to a message. -/
def emphasis (level : Level) (message : String) : String :=
  if level = TraceLevel then "[dim]" ++ message ++ "[reset]"
  else if level = DebugLevel then "[dim]" ++ message ++ "[reset]"
  else if level = InfoLevel then message
  else if level = WarnLevel then "[yellow]" ++ message ++ "[reset]"
  else if level = ErrorLevel then "[red]" ++ message ++ "[reset]"
  else if level = FatalLevel then "[red]" ++ message ++ "[reset]"
  else if level = PanicLevel then "[red]" ++ message ++ "[reset]"
  else message

/-- The method `Console.formatMessage`. -/
def formatMessage (env : Env) (event : Event) : String :=
  match indexString event env.MessageFieldName with
  | none => ""
  | some message => emphasis (eventLevel env event) (messageBody env event message)

/-- The method `Console.parseSource`. -/
def parseSource (event : Event) : String :=
  match indexString event "component" with
  | some task => if task ≠ "" then task else "system"
  | none => "system"

/-- The checksum `adler32.Checksum`. -/
def adler32 (data : List Nat) : Nat :=
  match data.foldl
      (fun (s : Nat × Nat) (x : Nat) => ((s.1 + x) % 65521, (s.2 + (s.1 + x) % 65521) % 65521))
      (1, 0) with
  | (a, b) => b * 65536 + a

/-- The palette of `hashColor`. -/
def colors : List String :=
  ["green", "light_green", "light_blue", "blue", "magenta", "light_magenta",
   "light_yellow", "cyan", "light_cyan", "red", "light_red"]

/-- The function `hashColor`: the palette entry at `int(h) % len(colors)`, a
remainder that takes the sign of `int(h)`; indexing outside the palette
panics. -/
def hashColor (sz : IntSize) (text : String) : Outcome String :=
  let h := adler32 (bytes text)
  let i := Int.tmod (toInt sz h) (colors.length : Int)
  if i < 0 then Outcome.panic ("runtime error: index out of range [" ++ fmtIntV i ++ "]")
  else
    match colors.get? i.toNat with
    | some c => Outcome.ret c
    | none => Outcome.panic ("runtime error: index out of range [" ++ fmtIntV i ++ "]")

/-- The method `Console.formatSource`. -/
def formatSource (sz : IntSize) (source : String) : Outcome String :=
  (hashColor sz source).bind (fun color =>
    Outcome.ret ("[" ++ color ++ "]" ++ source ++ " | [reset]"))

/-- The map `fieldSkipList` of `formatFields`, by its keys. -/
def fieldSkipList (env : Env) : List String :=
  [env.MessageFieldName, env.LevelFieldName, env.TimestampFieldName,
   env.ErrorFieldName, env.CallerFieldName, "component"]

/-- The conversion `time.Duration(v)` of a `float64`: the integer part when it
fits an `int64`. -/
def durationOfFloat (env : Env) (v : ℚ) : Int :=
  let t := Int.tdiv v.num (v.den : Int)
  if - 2 ^ 63 ≤ t ∧ t < 2 ^ 63 then t else wrapInt64 (env.float64ToInt64 v)

/-- The type switch of `formatFields` on one entry: the text appended to
`fields`, if any. -/
def renderField (env : Env) (key : String) : Value → Option String
  | Value.str v => some (key ++ "=" ++ v)
  | Value.int v => some (key ++ "=" ++ fmtIntV v)
  | Value.float64 v =>
    let dur := wrapInt64 (durationOfFloat env v * Millisecond)
    let s := DurationString (DurationRound dur (100 * Millisecond))
    some (key ++ "=" ++ s)
  | Value.null => some (key ++ "=null")
  | _ => none

/-- One step of the `range` loop of `formatFields`. -/
def fieldsStep (env : Env) (fields : List String) (kv : String × Value) : List String :=
  if kv.1 ∈ fieldSkipList env then fields
  else
    match renderField env kv.1 kv.2 with
    | some s => fields ++ [s]
    | none => fields

/-- The method `Console.formatFields`. -/
def formatFields (env : Env) (entry : Event) : String :=
  let fields := entry.foldl (fieldsStep env) []
  if fields.length = 0 then ""
  else "    [dim]" ++ " ".intercalate fields ++ "[reset]"

/-- The argument of `colorize.Color` in `Write`: the text
`fmt.Sprintf("%s %s %s%s%s", ...)` composes, its operands evaluated from left
to right. -/
def composed (env : Env) (event : Event) (source : String) : Outcome String :=
  (formatTimestamp env event).bind (fun ts =>
    (formatSource env.intSize source).bind (fun src =>
      Outcome.ret (ts ++ " " ++ formatLevel env event ++ " " ++ src ++
        formatMessage env event ++ formatFields env event)))

/-- The method `Console.Write`: the console after the call, and either the
returned `(n, err)` or a panic. -/
def Write (env : Env) (c : Console) (p : List UInt8) :
    Console × Outcome (Nat × Option String) :=
  match env.jsonDecode p with
  | Except.error err => (c, Outcome.ret (0, some ("cannot decode event: " ++ err)))
  | Except.ok event =>
    let source := parseSource event
    let c1 : Console :=
      if len source > c.maxLength then { c with maxLength := len source } else c
    match composed env event source with
    | Outcome.panic msg => (c1, Outcome.panic msg)
    | Outcome.ret text =>
      let line := env.colorize text ++ "\n"
      ({ c1 with Out := c1.Out ++ [line] }, Outcome.ret (env.outWrite c1.Out line))

/-! ## The markup expansion (package `colorstring`) -/

/-- The table `colorstring.DefaultColors`: the code of each markup name. -/
def DefaultColors : List (String × String) :=
  [("default", "39"), ("_default_", "49"),
   ("black", "30"), ("red", "31"), ("green", "32"), ("yellow", "33"),
   ("blue", "34"), ("magenta", "35"), ("cyan", "36"), ("light_gray", "37"),
   ("dark_gray", "90"), ("light_red", "91"), ("light_green", "92"),
   ("light_yellow", "93"), ("light_blue", "94"), ("light_magenta", "95"),
   ("light_cyan", "96"), ("white", "97"),
   ("_black_", "40"), ("_red_", "41"), ("_green_", "42"), ("_yellow_", "43"),
   ("_blue_", "44"), ("_magenta_", "45"), ("_cyan_", "46"), ("_light_gray_", "47"),
   ("_dark_gray_", "100"), ("_light_red_", "101"), ("_light_green_", "102"),
   ("_light_yellow_", "103"), ("_light_blue_", "104"), ("_light_magenta_", "105"),
   ("_light_cyan_", "106"), ("_white_", "107"),
   ("bold", "1"), ("dim", "2"), ("underline", "4"), ("blink_slow", "5"),
   ("blink_fast", "6"), ("invert", "7"), ("hidden", "8"),
   ("reset", "0"), ("reset_bold", "21")]

/-- Characters of the class `[a-z0-9_-]` under the flag `(?i)`. -/
def isTagChar (c : Char) : Bool :=
  let r := c.toNat
  (97 ≤ r && r ≤ 122) || (65 ≤ r && r ≤ 90) || (48 ≤ r && r ≤ 57) ||
  r = 95 || r = 45 || r = 0x17F || r = 0x212A

/-- A match of the pattern `\[[a-z0-9_-]+\]` at the head of the text: the name
between the brackets. -/
def matchTag : List Char → Option (List Char)
  | '[' :: cs =>
    match cs.takeWhile isTagChar, cs.dropWhile isTagChar with
    | c :: name, ']' :: _ => some (c :: name)
    | _, _ => none
  | _ => none

/-- The loop of `Colorize.Color` over the matches of the pattern, from left to
right: `skip` characters of a match remain to be passed over, `colored` tells
whether a known name was met, `out` is the text produced so far. -/
def colorLoop : List Char → Nat → Bool → List Char → List Char × Bool
  | [], _, colored, out => (out, colored)
  | _ :: cs, skip + 1, colored, out => colorLoop cs skip colored out
  | c :: cs, 0, colored, out =>
    match matchTag (c :: cs) with
    | some name =>
      match DefaultColors.lookup (String.mk name) with
      | some code =>
        colorLoop cs (name.length + 1) true (out ++ ("\x1b[" ++ code ++ "m").data)
      | none => colorLoop cs (name.length + 1) colored (out ++ '[' :: name ++ [']'])
    | none => colorLoop cs 0 colored (out ++ [c])

/-- The method `Color` of `colorstring.Colorize` with the default colours and
`Reset: true`: each `[name]` of the table becomes its escape sequence, any
other text stays, and the reset sequence is appended when a name was expanded. -/
def colorizeColor (v : String) : String :=
  match colorLoop v.data 0 false [] with
  | (out, colored) => String.mk out ++ (if colored then "\x1b[0m" else "")

/-! ## Timestamps in the layout `time.RFC3339` -/

/-- Reads `n` decimal digits. -/
def takeDigits : Nat → List Char → Nat → Option (Nat × List Char)
  | 0, cs, acc => some (acc, cs)
  | _ + 1, [], _ => none
  | n + 1, c :: cs, acc =>
    match digitVal c with
    | some d => takeDigits n cs (10 * acc + d)
    | none => none

/-- Reads one or two decimal digits, as `getnum` does for a field that is not
of fixed width (the hour of the layout, `15`). -/
def takeNumber : List Char → Option (Nat × List Char)
  | [] => none
  | c :: cs =>
    match digitVal c with
    | none => none
    | some d =>
      match cs with
      | [] => some (d, [])
      | c2 :: cs2 =>
        match digitVal c2 with
        | some d2 => some (10 * d + d2, cs2)
        | none => some (d, c2 :: cs2)

/-- Reads the character `c`. -/
def takeChar (c : Char) : List Char → Option (List Char)
  | [] => none
  | x :: cs => if x = c then some cs else none

/-- Number of days of a month. -/
def daysIn (year month : Nat) : Nat :=
  if month = 2 then
    if year % 4 = 0 ∧ (year % 100 ≠ 0 ∨ year % 400 = 0) then 29 else 28
  else if month = 4 ∨ month = 6 ∨ month = 9 ∨ month = 11 then 30
  else 31

/-- Days from 1970-01-01 to the given date of the proleptic Gregorian calendar. -/
def daysFromCivil (year month day : Nat) : Int :=
  let y : Int := if month ≤ 2 then (year : Int) - 1 else year
  let era := y / 400
  let yoe := y - era * 400
  let mp : Int := if month > 2 then (month : Int) - 3 else (month : Int) + 9
  let doy := (153 * mp + 2) / 5 + (day : Int) - 1
  let doe := yoe * 365 + yoe / 4 - yoe / 100 + doy
  era * 146097 + doe - 719468

/-- The zone of an RFC 3339 timestamp, after the optional fraction of a second
has been passed over: `Z`, or a sign, hours and minutes. Gives the offset in
seconds east of UTC. The range tests of `time.Parse` let an offset of 24 hours
or of 60 minutes pass. -/
def parseZone : List Char → Option Int
  | ['Z'] => some 0
  | sign :: cs =>
    if sign = '+' ∨ sign = '-' then
      match takeDigits 2 cs 0 with
      | some (zh, cs) =>
        match takeChar ':' cs with
        | some cs =>
          match takeDigits 2 cs 0 with
          | some (zm, []) =>
            if zh ≤ 24 ∧ zm ≤ 60 then
              some ((if sign = '-' then -1 else 1) * ((zh : Int) * 3600 + (zm : Int) * 60))
            else none
          | _ => none
        | none => none
      | none => none
    else none
  | _ => none

/-- The fraction of a second, which the layout does not name but `time.Parse`
accepts after the seconds: a point or a comma and at least one digit, passed
over. Anything else is left for the zone. -/
def skipFraction : List Char → List Char
  | p :: c :: cs =>
    if (p = '.' ∨ p = ',') ∧ (digitVal c).isSome then
      cs.dropWhile (fun x => (digitVal x).isSome)
    else p :: c :: cs
  | cs => cs

/-- The numbers read from a timestamp. -/
structure Fields where
  year : Nat
  month : Nat
  day : Nat
  hour : Nat
  minute : Nat
  second : Nat
  offset : Int

/-- The date and the hour of a timestamp `2006-01-02T15:04:05Z07:00`, and what
follows the hour. -/
def parseDateHour (cs : List Char) : Option (Nat × Nat × Nat × Nat × List Char) :=
  (takeDigits 4 cs 0).bind fun (year, cs) =>
  (takeChar '-' cs).bind fun cs =>
  (takeDigits 2 cs 0).bind fun (month, cs) =>
  (takeChar '-' cs).bind fun cs =>
  (takeDigits 2 cs 0).bind fun (day, cs) =>
  (takeChar 'T' cs).bind fun cs =>
  (takeNumber cs).bind fun (hour, cs) =>
  some (year, month, day, hour, cs)

/-- The fields of a timestamp `2006-01-02T15:04:05Z07:00`. -/
def parseFields (cs : List Char) : Option Fields :=
  (parseDateHour cs).bind fun (year, month, day, hour, cs) =>
  (takeChar ':' cs).bind fun cs =>
  (takeDigits 2 cs 0).bind fun (minute, cs) =>
  (takeChar ':' cs).bind fun cs =>
  (takeDigits 2 cs 0).bind fun (second, cs) =>
  (parseZone (skipFraction cs)).bind fun offset =>
  some { year := year, month := month, day := day, hour := hour, minute := minute,
         second := second, offset := offset }

/-- Whether the fields are in range. -/
def Fields.valid (f : Fields) : Bool :=
  decide (1 ≤ f.month ∧ f.month ≤ 12 ∧ 1 ≤ f.day ∧ f.day ≤ daysIn f.year f.month ∧
    f.hour < 24 ∧ f.minute < 60 ∧ f.second < 60)

/-- The instant the fields denote. -/
def Fields.toTime (f : Fields) : Time :=
  { unix := daysFromCivil f.year f.month f.day * 86400 + (f.hour : Int) * 3600 +
              (f.minute : Int) * 60 + (f.second : Int) - f.offset,
    offset := f.offset }

/-- A timestamp in the layout `2006-01-02T15:04:05Z07:00`. -/
def parseRFC3339Fields (cs : List Char) : Option Time :=
  match parseFields cs with
  | some f => if f.valid then some f.toTime else none
  | none => none

/-- The call `time.Parse(time.RFC3339, ts)` (`zerolog.TimeFieldFormat` is
`time.RFC3339` unless a program changes it): year, month, day, minute and
second have a fixed number of digits, the hour has one or two, a fraction of a
second may follow a point or a comma, and the zone is `Z` or a signed offset.
Of the error only the head of its message is kept. -/
def parseRFC3339 (ts : String) : Except String Time :=
  match parseRFC3339Fields ts.data with
  | some t => Except.ok t
  | none =>
    Except.error ("parsing time \"" ++ ts ++ "\" as \"2006-01-02T15:04:05Z07:00\": cannot parse")

/-! ## JSON (package `encoding/json`) -/

/-- White space between the tokens of JSON. -/
def isJsonSpace (b : Nat) : Bool := b = 0x20 || b = 0x09 || b = 0x0A || b = 0x0D

def skipSpace : List Nat → List Nat
  | [] => []
  | b :: bs => if isJsonSpace b then skipSpace bs else b :: bs

/-- A continuation byte of UTF-8. -/
def isCont (b : Nat) : Bool := 0x80 ≤ b && b ≤ 0xBF

/-- The function `utf8.DecodeRune`: the code point at the head of the bytes and
its width; the replacement character and width 1 for an invalid encoding. -/
def decodeRune : List Nat → Nat × Nat
  | [] => (0xFFFD, 0)
  | b0 :: rest =>
    if b0 < 0x80 then (b0, 1)
    else if 0xC2 ≤ b0 ∧ b0 ≤ 0xDF then
      match rest with
      | b1 :: _ => if isCont b1 then ((b0 - 0xC0) * 64 + (b1 - 0x80), 2) else (0xFFFD, 1)
      | _ => (0xFFFD, 1)
    else if 0xE0 ≤ b0 ∧ b0 ≤ 0xEF then
      match rest with
      | b1 :: b2 :: _ =>
        if (if b0 = 0xE0 then 0xA0 else 0x80) ≤ b1 ∧ b1 ≤ (if b0 = 0xED then 0x9F else 0xBF)
            ∧ isCont b2 then
          ((b0 - 0xE0) * 4096 + (b1 - 0x80) * 64 + (b2 - 0x80), 3)
        else (0xFFFD, 1)
      | _ => (0xFFFD, 1)
    else if 0xF0 ≤ b0 ∧ b0 ≤ 0xF4 then
      match rest with
      | b1 :: b2 :: b3 :: _ =>
        if (if b0 = 0xF0 then 0x90 else 0x80) ≤ b1 ∧ b1 ≤ (if b0 = 0xF4 then 0x8F else 0xBF)
            ∧ isCont b2 ∧ isCont b3 then
          ((b0 - 0xF0) * 262144 + (b1 - 0x80) * 4096 + (b2 - 0x80) * 64 + (b3 - 0x80), 4)
        else (0xFFFD, 1)
      | _ => (0xFFFD, 1)
    else (0xFFFD, 1)

/-- A digit of a number in base 16, in lower case. -/
def hexDigit (n : Nat) : Char := "0123456789abcdef".data.getD n '0'

/-- The function `quoteChar` of `encoding/json`: the text of a byte in the
message of a syntax error. The byte is quoted as `strconv.Quote` quotes the
character with its number, between single quotes. -/
def quoteChar (c : Nat) : String :=
  if c = 0x27 then "\x27\\\x27\x27"
  else if c = 0x22 then "\x27\"\x27"
  else
    "\x27" ++
    (if c = 0x5C then "\\\\"
     else if (0x20 ≤ c ∧ c ≤ 0x7E) ∨ (0xA1 ≤ c ∧ c ≤ 0xFF ∧ c ≠ 0xAD) then
       String.mk [Char.ofNat c]
     else if c = 7 then "\\a"
     else if c = 8 then "\\b"
     else if c = 12 then "\\f"
     else if c = 10 then "\\n"
     else if c = 13 then "\\r"
     else if c = 9 then "\\t"
     else if c = 11 then "\\v"
     else if c < 0x20 ∨ c = 0x7F then "\\x" ++ String.mk [hexDigit (c / 16), hexDigit (c % 16)]
     else "\\u00" ++ String.mk [hexDigit (c / 16), hexDigit (c % 16)]) ++
    "\x27"

/-- The message of a syntax error at the byte `c`. -/
def syntaxError (c : Nat) (context : String) : String :=
  "invalid character " ++ quoteChar c ++ " " ++ context

/-- The error where the head of the input is not what the syntax asks for: a
syntax error at that byte, and `unexpected EOF` where the input ends. -/
def errorAt (bs : List Nat) (context : String) : String :=
  match bs with
  | [] => "unexpected EOF"
  | c :: _ => syntaxError c context

/-- Value of a hexadecimal digit. -/
def hexVal (b : Nat) : Option Nat :=
  if 48 ≤ b ∧ b ≤ 57 then some (b - 48)
  else if 97 ≤ b ∧ b ≤ 102 then some (b - 87)
  else if 65 ≤ b ∧ b ≤ 70 then some (b - 55)
  else none

/-- Four hexadecimal digits, as after `\u`. -/
def hex4 : List Nat → Option (Nat × List Nat)
  | a :: b :: c :: d :: rest =>
    match hexVal a, hexVal b, hexVal c, hexVal d with
    | some a, some b, some c, some d => some (a * 4096 + b * 256 + c * 16 + d, rest)
    | _, _, _, _ => none
  | _ => none

/-- The error of an escape `\u` that is not followed by four hexadecimal
digits: at the first byte that is not such a digit, or at the end of the input. -/
def hexError : Nat → List Nat → String
  | 0, bs => errorAt bs "in \\u hexadecimal character escape"
  | _ + 1, [] => "unexpected EOF"
  | n + 1, b :: bs =>
    if (hexVal b).isSome then hexError n bs
    else syntaxError b "in \\u hexadecimal character escape"

/-- The character of a one-letter escape. -/
def simpleEscape (e : Nat) : Option Char :=
  if e = 0x22 then some (Char.ofNat 0x22)
  else if e = 0x5C then some (Char.ofNat 0x5C)
  else if e = 0x2F then some '/'
  else if e = 0x62 then some (Char.ofNat 8)
  else if e = 0x66 then some (Char.ofNat 12)
  else if e = 0x6E then some (Char.ofNat 10)
  else if e = 0x72 then some (Char.ofNat 13)
  else if e = 0x74 then some (Char.ofNat 9)
  else none

/-- An escape `\uXXXX` whose four digits gave `r`: a surrogate pair is
combined, a lone surrogate becomes the replacement character. -/
def unicodeEscape (r : Nat) (rest : List Nat) : Char × List Nat :=
  if 0xD800 ≤ r ∧ r < 0xE000 then
    match rest with
    | 0x5C :: 0x75 :: rest2 =>
      match hex4 rest2 with
      | some (r2, rest3) =>
        if r < 0xDC00 ∧ 0xDC00 ≤ r2 ∧ r2 < 0xE000 then
          (Char.ofNat (0x10000 + (r - 0xD800) * 1024 + (r2 - 0xDC00)), rest3)
        else (Char.ofNat 0xFFFD, rest)
      | none => (Char.ofNat 0xFFFD, rest)
    | _ => (Char.ofNat 0xFFFD, rest)
  else (Char.ofNat r, rest)

/-- A string literal after its opening quote: the text (escapes resolved,
invalid UTF-8 replaced) and what follows the closing quote. The first argument
bounds the number of steps by the length of the input. -/
def parseStringBody : Nat → List Nat → List Char → Except String (String × List Nat)
  | 0, _, _ => Except.error "unexpected EOF"
  | _ + 1, [], _ => Except.error "unexpected EOF"
  | fuel + 1, b :: bs, acc =>
    if b = 0x22 then Except.ok (String.mk acc.reverse, bs)
    else if b = 0x5C then
      match bs with
      | [] => Except.error "unexpected EOF"
      | e :: rest =>
        if e = 0x75 then
          match hex4 rest with
          | some (r, rest) =>
            match unicodeEscape r rest with
            | (c, rest) => parseStringBody fuel rest (c :: acc)
          | none => Except.error (hexError 4 rest)
        else
          match simpleEscape e with
          | some c => parseStringBody fuel rest (c :: acc)
          | none => Except.error (syntaxError e "in string escape code")
    else if b < 0x20 then Except.error (syntaxError b "in string literal")
    else
      match decodeRune (b :: bs) with
      | (r, size) => parseStringBody fuel ((b :: bs).drop size) (Char.ofNat r :: acc)

/-- The leading decimal digits of the input, as a number, their count, and what
follows them. -/
def digitRun : List Nat → Nat → Nat → Nat × Nat × List Nat
  | [], acc, n => (acc, n, [])
  | b :: bs, acc, n =>
    if 48 ≤ b ∧ b ≤ 57 then digitRun bs (10 * acc + (b - 48)) (n + 1) else (acc, n, b :: bs)

/-- The nearest `float64` to a non-negative rational `num / den`, ties to even,
as `num2 / den2`; `none` when it is beyond the largest `float64`. -/
def roundFloat64 (num den : Nat) : Option (Nat × Nat) :=
  if num = 0 ∨ den = 0 then some (0, 1)
  else
    let e0 : Int := (Nat.log2 num : Int) - (Nat.log2 den : Int)
    let e : Int := if num * 2 ^ (-e0).toNat < den * 2 ^ e0.toNat then e0 - 1 else e0
    let qe : Int := if e - 52 < -1074 then -1074 else e - 52
    let n := num * 2 ^ (-qe).toNat
    let d := den * 2 ^ qe.toNat
    let f := n / d
    let r := if 2 * (n % d) < d then f
             else if 2 * (n % d) > d then f + 1
             else if f % 2 = 0 then f else f + 1
    if r * 2 ^ qe.toNat ≥ 2 ^ 1024 * 2 ^ (-qe).toNat then none
    else some (r * 2 ^ qe.toNat, 2 ^ (-qe).toNat)

/-- The integer part of a number literal after its sign: a single `0`, or a
run of digits; its value, the number of its digits and what follows it. -/
def integerPart : List Nat → Nat × Nat × List Nat
  | 0x30 :: rest => (0, 1, rest)
  | bs => digitRun bs 0 0

/-- The fraction of a number literal, if it has one: its digits as a number,
their count and what follows them. -/
def parseFraction : List Nat → Except String (Nat × Nat × List Nat)
  | 0x2E :: rest1 =>
    match digitRun rest1 0 0 with
    | (fp, flen, rest2) =>
      if flen = 0 then Except.error (errorAt rest1 "after decimal point in numeric literal")
      else Except.ok (fp, flen, rest2)
  | rest => Except.ok (0, 0, rest)

/-- The exponent of a number literal, if it has one, and what follows it. -/
def parseExponent (rest : List Nat) : Except String (Int × List Nat) :=
  if rest.head? = some 0x65 ∨ rest.head? = some 0x45 then
    let rest1 := rest.drop 1
    let eneg := rest1.head? = some 0x2D
    let rest2 := if eneg ∨ rest1.head? = some 0x2B then rest1.drop 1 else rest1
    match digitRun rest2 0 0 with
    | (ep, elen, rest3) =>
      if elen = 0 then Except.error (errorAt rest2 "in exponent of numeric literal")
      else Except.ok (if eneg then - (ep : Int) else ep, rest3)
  else Except.ok (0, rest)

/-- A number literal: the `float64` that `strconv.ParseFloat` gives it, or
`none` when the literal is beyond the range of `float64`, and what follows the
literal. -/
def parseNumber (bs : List Nat) : Except String (Option ℚ × List Nat) :=
  let neg := bs.head? = some 0x2D
  let ds := if neg then bs.drop 1 else bs
  match integerPart ds with
  | (ip, ilen, rest) =>
    if ilen = 0 then Except.error (errorAt ds "in numeric literal")
    else
      match parseFraction rest with
      | Except.error e => Except.error e
      | Except.ok (fp, flen, rest) =>
        match parseExponent rest with
        | Except.error e => Except.error e
        | Except.ok (ep, rest) =>
          let mant := ip * 10 ^ flen + fp
          let sc : Int := ep - flen
          match roundFloat64 (mant * 10 ^ sc.toNat) (10 ^ (-sc).toNat) with
          | none => Except.ok (none, rest)
          | some (n, d) => Except.ok (some ((if neg then -1 else 1) * mkRat n d), rest)

/-- The error `encoding/json` saves when a number literal is beyond the range
of `float64`; `bs` starts with the literal and `rest` is what follows it. -/
def rangeError (bs rest : List Nat) : String :=
  "json: cannot unmarshal number " ++
    String.mk ((bs.take (bs.length - rest.length)).map Char.ofNat) ++
    " into Go value of type float64"

/-- The first of two saved errors. -/
def firstError : Option String → Option String → Option String
  | some e, _ => some e
  | none, later => later

/-- The assignment `m[key] = v` on a map. -/
def assign : Event → String → Value → Event
  | [], key, v => [(key, v)]
  | (k, w) :: rest, key, v => if k = key then (k, v) :: rest else (k, w) :: assign rest key v

/-- The letters of a literal `true`, `false` or `null` after its first one:
`name` is the literal, the first list holds the letters still expected. -/
def parseLiteral (name : String) : List Nat → List Nat → Except String (List Nat)
  | [], bs => Except.ok bs
  | _ :: _, [] => Except.error "unexpected EOF"
  | l :: ls, b :: bs =>
    if b = l then parseLiteral name ls bs
    else
      Except.error (syntaxError b
        ("in literal " ++ name ++ " (expecting \x27" ++ String.mk [Char.ofNat l] ++ "\x27)"))

mutual

/-- One JSON value as `encoding/json` stores it in an `interface{}`, what
follows it, and the first error saved while the value was converted: a number
beyond the range of `float64` leaves `nil` and saves an error, and decoding
goes on. The first argument bounds the number of steps by the length of the
input, the second is the nesting depth. -/
def parseValue : Nat → Nat → List Nat → Except String (Value × List Nat × Option String)
  | 0, _, _ => Except.error "unexpected EOF"
  | fuel + 1, depth, bs =>
    match skipSpace bs with
    | [] => Except.error "unexpected EOF"
    | b :: rest =>
      if b = 0x7B then
        if depth ≥ 10000 then Except.error (syntaxError b "exceeded max depth")
        else
          match skipSpace rest with
          | [] => Except.error "unexpected EOF"
          | c :: rest1 =>
            if c = 0x7D then Except.ok (Value.obj [], rest1, none)
            else parseMembers fuel (depth + 1) (c :: rest1) [] none
      else if b = 0x5B then
        if depth ≥ 10000 then Except.error (syntaxError b "exceeded max depth")
        else
          match skipSpace rest with
          | [] => Except.error "unexpected EOF"
          | c :: rest1 =>
            if c = 0x5D then Except.ok (Value.arr [], rest1, none)
            else parseElements fuel (depth + 1) (c :: rest1) [] none
      else if b = 0x22 then
        match parseStringBody (rest.length + 1) rest [] with
        | Except.ok (s, rest1) => Except.ok (Value.str s, rest1, none)
        | Except.error e => Except.error e
      else if b = 0x2D ∨ (48 ≤ b ∧ b ≤ 57) then
        match parseNumber (b :: rest) with
        | Except.ok (some x, rest1) => Except.ok (Value.float64 x, rest1, none)
        | Except.ok (none, rest1) =>
          Except.ok (Value.null, rest1, some (rangeError (b :: rest) rest1))
        | Except.error e => Except.error e
      else if b = 0x74 then
        match parseLiteral "true" [0x72, 0x75, 0x65] rest with
        | Except.ok rest1 => Except.ok (Value.bool true, rest1, none)
        | Except.error e => Except.error e
      else if b = 0x66 then
        match parseLiteral "false" [0x61, 0x6C, 0x73, 0x65] rest with
        | Except.ok rest1 => Except.ok (Value.bool false, rest1, none)
        | Except.error e => Except.error e
      else if b = 0x6E then
        match parseLiteral "null" [0x75, 0x6C, 0x6C] rest with
        | Except.ok rest1 => Except.ok (Value.null, rest1, none)
        | Except.error e => Except.error e
      else Except.error (syntaxError b "looking for beginning of value")

/-- The members of an object after its opening brace; `saved` is the first
error saved so far. -/
def parseMembers : Nat → Nat → List Nat → Event → Option String →
    Except String (Value × List Nat × Option String)
  | 0, _, _, _, _ => Except.error "unexpected EOF"
  | fuel + 1, depth, bs, acc, saved =>
    match skipSpace bs with
    | [] => Except.error "unexpected EOF"
    | q :: rest =>
      if q ≠ 0x22 then
        Except.error (syntaxError q "looking for beginning of object key string")
      else
        match parseStringBody (rest.length + 1) rest [] with
        | Except.error e => Except.error e
        | Except.ok (key, rest1) =>
          match skipSpace rest1 with
          | [] => Except.error "unexpected EOF"
          | c :: rest2 =>
            if c ≠ 0x3A then Except.error (syntaxError c "after object key")
            else
              match parseValue fuel depth rest2 with
              | Except.error e => Except.error e
              | Except.ok (v, rest3, err) =>
                match skipSpace rest3 with
                | [] => Except.error "unexpected EOF"
                | s :: rest4 =>
                  if s = 0x2C then
                    parseMembers fuel depth rest4 (assign acc key v) (firstError saved err)
                  else if s = 0x7D then
                    Except.ok (Value.obj (assign acc key v), rest4, firstError saved err)
                  else Except.error (syntaxError s "after object key:value pair")

/-- The elements of an array after its opening bracket; `saved` is the first
error saved so far. -/
def parseElements : Nat → Nat → List Nat → List Value → Option String →
    Except String (Value × List Nat × Option String)
  | 0, _, _, _, _ => Except.error "unexpected EOF"
  | fuel + 1, depth, bs, acc, saved =>
    match parseValue fuel depth bs with
    | Except.error e => Except.error e
    | Except.ok (v, rest, err) =>
      match skipSpace rest with
      | [] => Except.error "unexpected EOF"
      | s :: rest1 =>
        if s = 0x2C then parseElements fuel depth rest1 (acc ++ [v]) (firstError saved err)
        else if s = 0x5D then Except.ok (Value.arr (acc ++ [v]), rest1, firstError saved err)
        else Except.error (syntaxError s "after array element")

end

/-- The call `json.NewDecoder(bytes.NewReader(p)).Decode(&event)` on an empty
map: the first JSON value of the input is read, what follows it is left alone;
an object fills the map, `null` leaves it empty, any other value is an error
(a number is one whether or not it is in the range of `float64`). A syntax
error anywhere in the value comes before an error saved while the members were
converted. -/
def jsonDecode (p : List UInt8) : Except String Event :=
  let bs := p.map UInt8.toNat
  match skipSpace bs with
  | [] => Except.error "EOF"
  | _ :: _ =>
    match parseValue (bs.length + 1) 0 bs with
    | Except.error e => Except.error e
    | Except.ok (Value.obj kvs, _, none) => Except.ok kvs
    | Except.ok (Value.obj _, _, some e) => Except.error e
    | Except.ok (Value.null, _, none) => Except.ok []
    | Except.ok (Value.bool _, _, _) =>
      Except.error "json: cannot unmarshal bool into Go value of type map[string]interface \x7b\x7d"
    | Except.ok (Value.str _, _, _) =>
      Except.error "json: cannot unmarshal string into Go value of type map[string]interface \x7b\x7d"
    | Except.ok (Value.arr _, _, _) =>
      Except.error "json: cannot unmarshal array into Go value of type map[string]interface \x7b\x7d"
    | Except.ok (_, _, _) =>
      Except.error "json: cannot unmarshal number into Go value of type map[string]interface \x7b\x7d"

/-- The bytes of a text, as a `[]byte`. -/
def toBytes (text : String) : List UInt8 := (bytes text).map UInt8.ofNat

/-- The environment of a default build on a 64-bit platform: the field names
`zerolog` declares (`TimestampFieldName` is `time`), level names compared
exactly, timestamps in the layout `time.RFC3339`, the default colours of
`colorstring`, and a sink that accepts every write in full. A `float64` beyond
`int64` converts to the least `int64`, as on `amd64`. -/
def stdEnv : Env :=
  { LevelFieldName := "level"
    MessageFieldName := "message"
    TimestampFieldName := "time"
    ErrorFieldName := "error"
    CallerFieldName := "caller"
    foldLevelNames := false
    timeParse := parseRFC3339
    jsonDecode := jsonDecode
    colorize := colorizeColor
    outWrite := fun _ data => (len data, none)
    intSize := IntSize.bits64
    float64ToInt64 := fun _ => - 2 ^ 63 }

/-! ## The segments of a line, as the specification words them -/

/-- The order of the segments of a composed line: timestamp, space, badge,
space, the source tag in its colour followed by ` | `, message, fields. -/
def segments (timestamp badge color source message fields : String) : String :=
  timestamp ++ " " ++ badge ++ " " ++ "[" ++ color ++ "]" ++ source ++ " | [reset]" ++
    message ++ fields

/-- The kinds of value the auxiliary segment shows: text, number, null. -/
def shown : Value → Bool
  | Value.str _ => true
  | Value.int _ => true
  | Value.float64 _ => true
  | Value.null => true
  | _ => false

/-- The entries of an event outside the skip-list whose value is text, a number
or null. -/
def auxEntries (env : Env) (event : Event) : Event :=
  event.filter (fun kv => decide (kv.1 ∉ fieldSkipList env) && shown kv.2)

/-- The rendering of one auxiliary entry: `key=value`, `key=null`, or the key
and the rendering of the number. -/
def fieldText (env : Env) (kv : String × Value) : String :=
  match kv.2 with
  | Value.str v => kv.1 ++ "=" ++ v
  | Value.null => kv.1 ++ "=null"
  | Value.int n => kv.1 ++ "=" ++ fmtIntV n
  | Value.float64 x =>
    kv.1 ++ "=" ++
      DurationString (DurationRound (wrapInt64 (durationOfFloat env x * Millisecond))
        (100 * Millisecond))
  | _ => ""

/-- The auxiliary segment made of the given renderings: nothing when there is
none, otherwise the renderings joined by single spaces, indented and dimmed. -/
def fieldsSegment (texts : List String) : String :=
  if texts.isEmpty then "" else "    [dim]" ++ " ".intercalate texts ++ "[reset]"

/-! ## Sample inputs -/

/-- The record of the scenario of the specification. -/
def buildFailed : List UInt8 :=
  toBytes "\x7b\"level\":\"error\",\"message\":\"build failed\",\"error\":\"exit 1\",\"component\":\"engine\"\x7d"

/-- The empty record. -/
def emptyRecord : List UInt8 := toBytes "\x7b\x7d"

/-- A record cut off in the middle. -/
def truncatedRecord : List UInt8 := toBytes "\x7b\"level\":"

/-- A record whose timestamp is not a timestamp; the text is given under both
the key `time` and the key `timestamp`. -/
def badTimestamp : List UInt8 :=
  toBytes "\x7b\"time\":\"not-a-time\",\"timestamp\":\"not-a-time\",\"message\":\"hello\"\x7d"

/-- A record with an error and no message. -/
def errorOnly : List UInt8 := toBytes "\x7b\"level\":\"error\",\"error\":\"exit 1\"\x7d"

/-- The multiple of 100 nearest to `v`, the larger one on a tie: a count of
milliseconds rounded to a tenth of a second, halfway values away from zero. -/
def nearestHundred (v : Nat) : Nat := (v + 50) / 100 * 100

/-- A record with an integer field. -/
def countRecord : List UInt8 := toBytes "\x7b\"count\":5\x7d"

/-- The comparison `zerolog.ParseLevel` makes between the level text and a
level name: `strings.EqualFold` when `fold` is set, equality otherwise. -/
def levelNameEq (fold : Bool) (levelStr name : String) : Bool :=
  if fold then EqualFold levelStr name else decide (levelStr = name)

/-- The names of the seven severities. -/
def severityNames : List String :=
  ["trace", "debug", "info", "warn", "error", "fatal", "panic"]

/-- The environment `stdEnv` with a `zerolog` whose `ParseLevel` compares the
level names with `strings.EqualFold`. -/
def foldEnv : Env := { stdEnv with foldLevelNames := true }

/-- The environment `stdEnv` on a platform whose `int` is 32 bits wide. -/
def env32 : Env := { stdEnv with intSize := IntSize.bits32 }

/-- A record whose component has a checksum beyond the largest 32-bit `int`. -/
def longComponent : List UInt8 :=
  toBytes "\x7b\"component\":\"dagger-engine-session-frontend\",\"message\":\"ready\"\x7d"

/-- A record with a boolean field. -/
def cachedRecord : List UInt8 := toBytes "\x7b\"message\":\"pulled\",\"cached\":true\x7d"

/-- A record whose message has a line feed inside. -/
def twoLineRecord : List UInt8 := toBytes "\x7b\"message\":\"first\\nsecond\"\x7d"

/-- A record of level error whose message is the text of the badge. -/
def badgeInMessage : List UInt8 := toBytes "\x7b\"level\":\"error\",\"message\":\"ERR\"\x7d"

/-- The console after a sequence of calls of `Write`, whatever each returned. -/
def writeAll (env : Env) (c : Console) (ps : List (List UInt8)) : Console :=
  ps.foldl (fun c p => (Write env c p).1) c

/-- The byte lengths of the source tags of the inputs that decode, in the order
of the calls. -/
def decodedTagLengths (env : Env) (ps : List (List UInt8)) : List Nat :=
  ps.filterMap (fun p =>
    match env.jsonDecode p with
    | Except.ok event => some (len (parseSource event))
    | Except.error _ => none)

/-- The number of line terminators in a text. -/
def lineFeeds (text : String) : Nat := text.data.count (Char.ofNat 10)

/-- The number of places of a text where the text `needle` starts. -/
def occurrences (needle : List Char) : List Char → Nat
  | [] => 0
  | c :: cs => (if needle.isPrefixOf (c :: cs) then 1 else 0) + occurrences needle cs

/-- A sink that accepts every write in full: it answers the number of bytes it
was handed and no error. -/
def Accepts (env : Env) : Prop :=
  ∀ (earlier : List String) (data : String), env.outWrite earlier data = (len data, none)

/-- The three-letter badge of each severity name, as the specification lists
them. -/
def badgeOf : List (String × String) :=
  [("trace", "TRC"), ("debug", "DBG"), ("info", "INF"), ("warn", "WRN"),
   ("error", "ERR"), ("fatal", "FTL"), ("panic", "PNC")]

/-- The skip-list as the specification words it. -/
def specSkipList : List String :=
  ["message", "level", "timestamp", "error", "caller", "component"]

/-- A record that carries a text under the key `timestamp`. -/
def timestampKeyRecord : List UInt8 :=
  toBytes "\x7b\"timestamp\":\"2023-01-02T15:04:05Z\",\"message\":\"hello\"\x7d"

/-! ## Lemmas on the map index -/

theorem indexString_of_index {event : Event} {key s : String}
    (h : index event key = some (Value.str s)) : indexString event key = some s := by
  simp [indexString, h]

theorem indexString_none_of_index {event : Event} {key : String}
    (h : ∀ s, index event key ≠ some (Value.str s)) : indexString event key = none := by
  unfold indexString
  split
  · rename_i s hs
    exact absurd hs (h s)
  · rfl

theorem index_of_indexString {event : Event} {key s : String}
    (h : indexString event key = some s) : index event key = some (Value.str s) := by
  unfold indexString at h
  split at h
  · rename_i s1 hs
    simp only [Option.some.injEq] at h
    rw [hs, h]
  · exact absurd h (by simp)

/-! ## Levels -/

theorem parseLevel_names (fold : Bool) :
    ParseLevel fold "trace" = TraceLevel ∧ ParseLevel fold "debug" = DebugLevel ∧
    ParseLevel fold "info" = InfoLevel ∧ ParseLevel fold "warn" = WarnLevel ∧
    ParseLevel fold "error" = ErrorLevel ∧ ParseLevel fold "fatal" = FatalLevel ∧
    ParseLevel fold "panic" = PanicLevel := by
  cases fold <;> decide

theorem eventLevel_of_text {env : Env} {event : Event} {l : String}
    (h : index event env.LevelFieldName = some (Value.str l)) :
    eventLevel env event = ParseLevel env.foldLevelNames l := by
  simp [eventLevel, indexString_of_index h]

theorem eventLevel_default {env : Env} {event : Event}
    (h : ∀ s, index event env.LevelFieldName ≠ some (Value.str s)) :
    eventLevel env event = DebugLevel := by
  simp [eventLevel, indexString_none_of_index h]

/-- C2: an event whose level field is one of the seven level names gets the
badge of that level from `formatLevel` (trace `TRC` in magenta, debug `DBG` in
yellow, info `INF` in green, warn `WRN`, error `ERR`, fatal `FTL` and panic
`PNC` in red), and the seven badges are pairwise distinct, as three-letter
texts and with their markup. -/
theorem formatLevel_badges (env : Env) (event : Event) :
    (index event env.LevelFieldName = some (Value.str "trace") →
      formatLevel env event = "[magenta]TRC[reset]") ∧
    (index event env.LevelFieldName = some (Value.str "debug") →
      formatLevel env event = "[yellow]DBG[reset]") ∧
    (index event env.LevelFieldName = some (Value.str "info") →
      formatLevel env event = "[green]INF[reset]") ∧
    (index event env.LevelFieldName = some (Value.str "warn") →
      formatLevel env event = "[red]WRN[reset]") ∧
    (index event env.LevelFieldName = some (Value.str "error") →
      formatLevel env event = "[red]ERR[reset]") ∧
    (index event env.LevelFieldName = some (Value.str "fatal") →
      formatLevel env event = "[red]FTL[reset]") ∧
    (index event env.LevelFieldName = some (Value.str "panic") →
      formatLevel env event = "[red]PNC[reset]") ∧
    ["TRC", "DBG", "INF", "WRN", "ERR", "FTL", "PNC"].Nodup ∧
    ["[magenta]TRC[reset]", "[yellow]DBG[reset]", "[green]INF[reset]", "[red]WRN[reset]",
     "[red]ERR[reset]", "[red]FTL[reset]", "[red]PNC[reset]"].Nodup := by
  obtain ⟨h1, h2, h3, h4, h5, h6, h7⟩ := parseLevel_names env.foldLevelNames
  refine ⟨?_, ?_, ?_, ?_, ?_, ?_, ?_, by decide, by decide⟩
  · intro h
    rw [formatLevel, eventLevel_of_text h, h1]
    decide
  · intro h
    rw [formatLevel, eventLevel_of_text h, h2]
    decide
  · intro h
    rw [formatLevel, eventLevel_of_text h, h3]
    decide
  · intro h
    rw [formatLevel, eventLevel_of_text h, h4]
    decide
  · intro h
    rw [formatLevel, eventLevel_of_text h, h5]
    decide
  · intro h
    rw [formatLevel, eventLevel_of_text h, h6]
    decide
  · intro h
    rw [formatLevel, eventLevel_of_text h, h7]
    decide

/-- C2, at a sample event: a record of level `warn` gets the badge `WRN`. -/
theorem formatLevel_badges_witness :
    index [("message", Value.str "disk almost full"), ("level", Value.str "warn")]
        stdEnv.LevelFieldName = some (Value.str "warn") ∧
    formatLevel stdEnv [("message", Value.str "disk almost full"), ("level", Value.str "warn")]
      = "[red]WRN[reset]" :=
  ⟨rfl,
   (formatLevel_badges stdEnv
      [("message", Value.str "disk almost full"), ("level", Value.str "warn")]).2.2.2.1 rfl⟩

/-- C3, refuted as stated: the empty record has neither a level nor a timestamp,
and a record may carry a level that is not a text; both get the badge `DBG`,
not `???`, and the line written for the empty record shows `DBG`. -/
theorem formatLevel_missing_level_counterexample :
    index [] stdEnv.LevelFieldName = none ∧
    index [] stdEnv.TimestampFieldName = none ∧
    formatLevel stdEnv [] = "[yellow]DBG[reset]" ∧
    formatLevel stdEnv [] ≠ "[bold]???[reset]" ∧
    formatLevel stdEnv [("level", Value.float64 3)] = "[yellow]DBG[reset]" ∧
    stdEnv.jsonDecode emptyRecord = Except.ok [] ∧
    Write stdEnv ⟨[], 0⟩ emptyRecord =
      (⟨["??? \x1b[33mDBG\x1b[0m \x1b[36msystem | \x1b[0m\x1b[0m\n"], 6⟩,
       Outcome.ret (40, none)) := by
  refine ⟨rfl, rfl, by decide, by decide, by decide, rfl, by decide⟩

/-- C3, amended: an event that has no level key, or whose level is not a text,
gets the debug badge `DBG` from `formatLevel`; when it has no text timestamp
either, the composed line starts with the placeholder `???` followed by that
badge. -/
theorem formatLevel_missing_level (env : Env) (event : Event)
    (h : ∀ s, index event env.LevelFieldName ≠ some (Value.str s)) :
    formatLevel env event = "[yellow]DBG[reset]" ∧
    ((∀ ts, index event env.TimestampFieldName ≠ some (Value.str ts)) →
      ∀ source color, hashColor env.intSize source = Outcome.ret color →
        composed env event source =
          Outcome.ret (segments "???" "[yellow]DBG[reset]" color source
            (formatMessage env event) (formatFields env event))) := by
  have hl : formatLevel env event = "[yellow]DBG[reset]" := by
    rw [formatLevel, eventLevel_default h]
    decide
  refine ⟨hl, ?_⟩
  intro hts source color hcol
  simp only [composed, formatTimestamp, indexString_none_of_index hts, formatSource, hcol,
    Outcome.bind, hl, segments, String.append_assoc]

/-- C3, amended, at the empty record. -/
theorem formatLevel_missing_level_witness :
    (∀ s, index [] stdEnv.LevelFieldName ≠ some (Value.str s)) ∧
    formatLevel stdEnv [] = "[yellow]DBG[reset]" :=
  ⟨fun _ h => Option.noConfusion h,
   (formatLevel_missing_level stdEnv [] (fun _ h => Option.noConfusion h)).1⟩

/-! ## Messages -/

theorem emphasis_cases (level : Level) (body : String) :
    emphasis level body = "[dim]" ++ body ++ "[reset]" ∨ emphasis level body = body ∨
    emphasis level body = "[yellow]" ++ body ++ "[reset]" ∨
    emphasis level body = "[red]" ++ body ++ "[reset]" := by
  unfold emphasis
  repeat' split
  all_goals simp

/-- C4, refuted as stated: a record with the error `exit 1` and no message
renders an empty message segment, and the error text is nowhere in the line. -/
theorem formatMessage_error_only_counterexample :
    stdEnv.jsonDecode errorOnly =
      Except.ok [("level", Value.str "error"), ("error", Value.str "exit 1")] ∧
    index [("level", Value.str "error"), ("error", Value.str "exit 1")] stdEnv.ErrorFieldName
      = some (Value.str "exit 1") ∧
    index [("level", Value.str "error"), ("error", Value.str "exit 1")] stdEnv.MessageFieldName
      = none ∧
    formatMessage stdEnv [("level", Value.str "error"), ("error", Value.str "exit 1")] = "" ∧
    composed stdEnv [("level", Value.str "error"), ("error", Value.str "exit 1")] "system" =
      Outcome.ret "??? [red]ERR[reset] [cyan]system | [reset]" ∧
    (Write stdEnv ⟨[], 0⟩ errorOnly).1.Out =
      ["??? \x1b[31mERR\x1b[0m \x1b[36msystem | \x1b[0m\x1b[0m\n"] := by
  refine ⟨rfl, rfl, rfl, by decide, by decide, by decide⟩

/-- C4, amended: for an event whose message is the text `m`, the message
segment is the emphasis of the level around `TrimSpace m` when the error is
missing, empty or not a text, and around `TrimSpace m`, `: ` and the error
`e`, untrimmed, when the error is a non-empty text `e`; the emphasis only
wraps the body in markup. An event whose message is missing or not a text
gets an empty message segment, whatever its error is. -/
theorem formatMessage_body (env : Env) (event : Event) :
    (∀ m, index event env.MessageFieldName = some (Value.str m) →
      ((∀ e, index event env.ErrorFieldName = some (Value.str e) → e = "") →
        formatMessage env event = emphasis (eventLevel env event) (TrimSpace m)) ∧
      (∀ e, index event env.ErrorFieldName = some (Value.str e) → e ≠ "" →
        formatMessage env event =
          emphasis (eventLevel env event) (TrimSpace m ++ ": " ++ e))) ∧
    (∀ level body,
      emphasis level body = "[dim]" ++ body ++ "[reset]" ∨ emphasis level body = body ∨
      emphasis level body = "[yellow]" ++ body ++ "[reset]" ∨
      emphasis level body = "[red]" ++ body ++ "[reset]") ∧
    ((∀ m, index event env.MessageFieldName ≠ some (Value.str m)) →
      formatMessage env event = "") := by
  refine ⟨?_, emphasis_cases, ?_⟩
  · intro m hm
    constructor
    · intro he
      simp only [formatMessage, indexString_of_index hm, messageBody]
      cases hidx : indexString event env.ErrorFieldName with
      | none => rfl
      | some e => simp [he e (index_of_indexString hidx)]
    · intro e he hne
      simp [formatMessage, indexString_of_index hm, messageBody, indexString_of_index he, hne]
  · intro hm
    simp [formatMessage, indexString_none_of_index hm]

/-- C4, amended, at a sample event: a padded message with an error. -/
theorem formatMessage_body_witness :
    index [("message", Value.str "  build failed \n"), ("error", Value.str " exit 1")]
      stdEnv.MessageFieldName = some (Value.str "  build failed \n") ∧
    index [("message", Value.str "  build failed \n"), ("error", Value.str " exit 1")]
      stdEnv.ErrorFieldName = some (Value.str " exit 1") ∧
    formatMessage stdEnv [("message", Value.str "  build failed \n"), ("error", Value.str " exit 1")]
      = emphasis DebugLevel ("build failed" ++ ": " ++ " exit 1") :=
  ⟨rfl, rfl,
   ((formatMessage_body stdEnv
      [("message", Value.str "  build failed \n"), ("error", Value.str " exit 1")]).1
      "  build failed \n" rfl).2 " exit 1" rfl (by decide)⟩

/-! ## Source tags -/

theorem formatSource_system (sz : IntSize) :
    formatSource sz "system" = Outcome.ret "[cyan]system | [reset]" := by
  cases sz <;> decide

/-- C5: `parseSource` returns the component when it is a non-empty text and
`system` otherwise (no component key, the empty text, or a value that is not a
text); a record without a component is rendered with the source tag `system`,
in its colour, on every platform. -/
theorem parseSource_default (event : Event) :
    (∀ task, index event "component" = some (Value.str task) → task ≠ "" →
      parseSource event = task) ∧
    ((∀ task, index event "component" = some (Value.str task) → task = "") →
      parseSource event = "system") ∧
    (index event "component" = none → parseSource event = "system") ∧
    (index event "component" = some (Value.str "") → parseSource event = "system") ∧
    (∀ v, index event "component" = some v → (∀ task, v ≠ Value.str task) →
      parseSource event = "system") ∧
    (index event "component" = none → ∀ env : Env,
      formatSource env.intSize (parseSource event) = Outcome.ret "[cyan]system | [reset]" ∧
      composed env event (parseSource event) =
        (formatTimestamp env event).bind (fun ts =>
          Outcome.ret (segments ts (formatLevel env event) "cyan" "system"
            (formatMessage env event) (formatFields env event)))) := by
  have hdefault : (∀ task, index event "component" = some (Value.str task) → task = "") →
      parseSource event = "system" := by
    intro h
    unfold parseSource
    cases hidx : indexString event "component" with
    | none => rfl
    | some task => simp [h task (index_of_indexString hidx)]
  refine ⟨?_, hdefault, ?_, ?_, ?_, ?_⟩
  · intro task h hne
    simp [parseSource, indexString_of_index h, hne]
  · intro h
    exact hdefault (fun task ht => by rw [h] at ht; exact Option.noConfusion ht)
  · intro h
    apply hdefault
    intro task ht
    rw [h] at ht
    simp only [Option.some.injEq, Value.str.injEq] at ht
    exact ht.symm
  · intro v h hv
    apply hdefault
    intro task ht
    rw [h] at ht
    simp only [Option.some.injEq] at ht
    exact absurd ht (hv task)
  · intro h env
    have hs : parseSource event = "system" :=
      hdefault (fun task ht => by rw [h] at ht; exact Option.noConfusion ht)
    rw [hs]
    refine ⟨formatSource_system _, ?_⟩
    simp only [composed, formatSource_system, Outcome.bind, segments, String.append_assoc]
    rfl

/-- C5, at sample events: the component `engine` is the source, and a record
with a message only has the source `system`. -/
theorem parseSource_default_witness :
    index [("component", Value.str "engine")] "component" = some (Value.str "engine") ∧
    "engine" ≠ "" ∧
    parseSource [("component", Value.str "engine")] = "engine" ∧
    index [("message", Value.str "hello")] "component" = none ∧
    parseSource [("message", Value.str "hello")] = "system" :=
  ⟨rfl, by decide,
   (parseSource_default [("component", Value.str "engine")]).1 "engine" rfl (by decide),
   rfl,
   (parseSource_default [("message", Value.str "hello")]).2.2.1 rfl⟩

/-! ## The colour of a source tag -/

theorem adler32_fold_lt (data : List Nat) (s : Nat × Nat) (h1 : s.1 < 65521)
    (h2 : s.2 < 65521) :
    (data.foldl
      (fun (s : Nat × Nat) (x : Nat) => ((s.1 + x) % 65521, (s.2 + (s.1 + x) % 65521) % 65521))
      s).1 < 65521 ∧
    (data.foldl
      (fun (s : Nat × Nat) (x : Nat) => ((s.1 + x) % 65521, (s.2 + (s.1 + x) % 65521) % 65521))
      s).2 < 65521 := by
  induction data generalizing s with
  | nil => exact ⟨h1, h2⟩
  | cons x rest ih =>
    simp only [List.foldl_cons]
    exact ih _ (Nat.mod_lt _ (by norm_num)) (Nat.mod_lt _ (by norm_num))

theorem adler32_lt (data : List Nat) : adler32 data < 2 ^ 32 := by
  unfold adler32
  have h := adler32_fold_lt data (1, 0) (by norm_num) (by norm_num)
  generalize data.foldl _ (1, 0) = s at h
  obtain ⟨a, b⟩ := s
  simp only at h ⊢
  omega

theorem hashColor_bits64 (text : String) :
    ∃ color, color ∈ colors ∧ hashColor IntSize.bits64 text = Outcome.ret color := by
  have hlt := adler32_lt (bytes text)
  have hto : toInt IntSize.bits64 (adler32 (bytes text)) = (adler32 (bytes text) : Int) := by
    simp only [toInt, IntSize.bits]
    omega
  have hlen : (colors.length : Int) = 11 := by decide
  have hi0 : 0 ≤ Int.tmod (adler32 (bytes text) : Int) 11 :=
    Int.tmod_nonneg _ (Int.ofNat_nonneg _)
  have hi1 : Int.tmod (adler32 (bytes text) : Int) 11 < 11 :=
    Int.tmod_lt_of_pos _ (by norm_num)
  have hget : ∃ c, colors.get? (Int.tmod (adler32 (bytes text) : Int) 11).toNat = some c := by
    have : (Int.tmod (adler32 (bytes text) : Int) 11).toNat < colors.length := by
      have : colors.length = 11 := by decide
      omega
    exact ⟨colors.get ⟨_, this⟩, List.get?_eq_get this⟩
  obtain ⟨c, hc⟩ := hget
  refine ⟨c, List.get?_mem hc, ?_⟩
  simp only [hashColor, hto, hlen]
  rw [if_neg (not_lt.mpr hi0), hc]

/-! ## The call `Write` -/

theorem Write_of_composed {env : Env} {p : List UInt8} {event : Event} {text : String}
    (c : Console) (hdec : env.jsonDecode p = Except.ok event)
    (hcomp : composed env event (parseSource event) = Outcome.ret text) :
    Write env c p =
      (⟨c.Out ++ [env.colorize text ++ "\n"], max c.maxLength (len (parseSource event))⟩,
       Outcome.ret (env.outWrite c.Out (env.colorize text ++ "\n"))) := by
  simp only [Write, hdec, hcomp]
  by_cases h : len (parseSource event) > c.maxLength
  · simp only [h, if_true]
    rw [max_eq_right (le_of_lt h)]
  · simp only [h, if_false]
    rw [max_eq_left (not_lt.mp h)]

theorem Write_of_panic {env : Env} {p : List UInt8} {event : Event} {msg : String}
    (c : Console) (hdec : env.jsonDecode p = Except.ok event)
    (hcomp : composed env event (parseSource event) = Outcome.panic msg) :
    Write env c p =
      (⟨c.Out, max c.maxLength (len (parseSource event))⟩, Outcome.panic msg) := by
  simp only [Write, hdec, hcomp]
  by_cases h : len (parseSource event) > c.maxLength
  · simp only [h, if_true]
    rw [max_eq_right (le_of_lt h)]
  · simp only [h, if_false]
    rw [max_eq_left (not_lt.mp h)]

theorem composed_of_parts {env : Env} {event : Event} {source ts color : String}
    (hts : formatTimestamp env event = Outcome.ret ts)
    (hcol : hashColor env.intSize source = Outcome.ret color) :
    composed env event source =
      Outcome.ret (segments ts (formatLevel env event) color source
        (formatMessage env event) (formatFields env event)) := by
  simp only [composed, hts, formatSource, hcol, Outcome.bind, segments, String.append_assoc]

/-- C1: for an event that decodes and renders (its timestamp yields a text, its
source tag a colour), the text `Write` composes before the markup is expanded
is the timestamp, a space, the badge, a space, `[colour]source | [reset]`, the
message and the fields, in that order; the line handed to the sink is its
expansion followed by a line feed, and the call returns the answer of the sink.
For the record of the scenario the text is
`??? [red]ERR[reset] [light_yellow]engine | [reset][red]build failed: exit 1[reset]`,
which contains the badge, the source tag and the message with its error. -/
theorem Write_composes_segments :
    (∀ (env : Env) (c : Console) (p : List UInt8) (event : Event) (ts color : String),
      env.jsonDecode p = Except.ok event →
      formatTimestamp env event = Outcome.ret ts →
      hashColor env.intSize (parseSource event) = Outcome.ret color →
      composed env event (parseSource event) =
        Outcome.ret (ts ++ " " ++ formatLevel env event ++ " " ++ "[" ++ color ++ "]" ++
          parseSource event ++ " | [reset]" ++ formatMessage env event ++
          formatFields env event) ∧
      (Write env c p).1.Out =
        c.Out ++ [env.colorize (ts ++ " " ++ formatLevel env event ++ " " ++ "[" ++ color ++
          "]" ++ parseSource event ++ " | [reset]" ++ formatMessage env event ++
          formatFields env event) ++ "\n"] ∧
      (Write env c p).2 =
        Outcome.ret (env.outWrite c.Out (env.colorize (ts ++ " " ++ formatLevel env event ++
          " " ++ "[" ++ color ++ "]" ++ parseSource event ++ " | [reset]" ++
          formatMessage env event ++ formatFields env event) ++ "\n"))) ∧
    (∃ event,
      stdEnv.jsonDecode buildFailed = Except.ok event ∧
      composed stdEnv event (parseSource event) = Outcome.ret
        "??? [red]ERR[reset] [light_yellow]engine | [reset][red]build failed: exit 1[reset]" ∧
      formatLevel stdEnv event = "[red]ERR[reset]" ∧
      parseSource event = "engine" ∧
      formatMessage stdEnv event = "[red]build failed: exit 1[reset]" ∧
      formatFields stdEnv event = "") ∧
    "??? [red]ERR[reset] [light_yellow]engine | [reset][red]build failed: exit 1[reset]" =
      "??? " ++ "[red]ERR[reset]" ++ " [light_yellow]" ++ "engine | " ++ "[reset]" ++
        "[red]build failed: exit 1[reset]" ++ "" := by
  refine ⟨?_, ?_, by decide⟩
  · intro env c p event ts color hdec hts hcol
    have hcomp := @composed_of_parts env event (parseSource event) ts color hts hcol
    rw [segments] at hcomp
    refine ⟨hcomp, ?_, ?_⟩
    · rw [Write_of_composed c hdec hcomp]
    · rw [Write_of_composed c hdec hcomp]
  · exact ⟨_, rfl, by decide, by decide, by decide, by decide, by decide⟩

/-- C1, at the record of the scenario: the line written for it. -/
theorem Write_composes_segments_witness :
    stdEnv.jsonDecode buildFailed =
      Except.ok [("level", Value.str "error"), ("message", Value.str "build failed"),
        ("error", Value.str "exit 1"), ("component", Value.str "engine")] ∧
    (Write stdEnv ⟨[], 0⟩ buildFailed).1.Out =
      [stdEnv.colorize ("???" ++ " " ++ "[red]ERR[reset]" ++ " " ++ "[" ++ "light_yellow" ++ "]" ++
        "engine" ++ " | [reset]" ++ "[red]build failed: exit 1[reset]" ++ "") ++ "\n"] :=
  ⟨rfl,
   (Write_composes_segments.1 stdEnv ⟨[], 0⟩ buildFailed
      [("level", Value.str "error"), ("message", Value.str "build failed"),
        ("error", Value.str "exit 1"), ("component", Value.str "engine")]
      "???" "light_yellow" rfl (by decide) (by decide)).2.1⟩

/-- C6: when the bytes do not decode, `Write` returns the count 0 and an error
whose text is `cannot decode event: ` followed by the error of the decoder; the
sink is handed nothing and the width hint keeps its value. -/
theorem Write_decode_error (env : Env) (c : Console) (p : List UInt8) (err : String)
    (h : env.jsonDecode p = Except.error err) :
    (Write env c p).2 = Outcome.ret (0, some ("cannot decode event: " ++ err)) ∧
    (Write env c p).1.Out = c.Out ∧
    (Write env c p).1.maxLength = c.maxLength := by
  simp only [Write, h, and_self]

/-- C6, at a record cut off in the middle, on a console that has written
before. -/
theorem Write_decode_error_witness :
    stdEnv.jsonDecode truncatedRecord = Except.error "unexpected EOF" ∧
    (Write stdEnv ⟨["earlier line\n"], 9⟩ truncatedRecord).2 =
      Outcome.ret (0, some ("cannot decode event: " ++ "unexpected EOF")) ∧
    (Write stdEnv ⟨["earlier line\n"], 9⟩ truncatedRecord).1.Out = ["earlier line\n"] ∧
    (Write stdEnv ⟨["earlier line\n"], 9⟩ truncatedRecord).1.maxLength = 9 :=
  ⟨rfl, Write_decode_error stdEnv ⟨["earlier line\n"], 9⟩ truncatedRecord "unexpected EOF" rfl⟩

/-- C7, refuted as stated: for a record whose timestamp is the text
`not-a-time`, `Write` returns nothing, and so no error: it panics with the
error of `time.Parse`. -/
theorem Write_bad_timestamp_counterexample :
    stdEnv.jsonDecode badTimestamp =
      Except.ok [("time", Value.str "not-a-time"), ("timestamp", Value.str "not-a-time"),
        ("message", Value.str "hello")] ∧
    Write stdEnv ⟨[], 0⟩ badTimestamp =
      (⟨[], 6⟩, Outcome.panic
        "parsing time \"not-a-time\" as \"2006-01-02T15:04:05Z07:00\": cannot parse") ∧
    (∀ n err, (Write stdEnv ⟨[], 0⟩ badTimestamp).2 ≠ Outcome.ret (n, err)) := by
  have h : Write stdEnv ⟨[], 0⟩ badTimestamp =
      (⟨[], 6⟩, Outcome.panic
        "parsing time \"not-a-time\" as \"2006-01-02T15:04:05Z07:00\": cannot parse") := by
    decide
  refine ⟨rfl, h, ?_⟩
  intro n err hret
  rw [h] at hret
  exact Outcome.noConfusion hret

/-- C7, amended: for a decodable event whose timestamp is a text that does not
parse, `formatTimestamp` panics with the parse error and the panic leaves
`Write`, which returns neither a count nor an error; the sink is handed
nothing, and the width hint has already taken the source tag into account. -/
theorem Write_bad_timestamp (env : Env) (c : Console) (p : List UInt8) (event : Event)
    (ts err : String)
    (hdec : env.jsonDecode p = Except.ok event)
    (hts : index event env.TimestampFieldName = some (Value.str ts))
    (hparse : env.timeParse ts = Except.error err) :
    formatTimestamp env event = Outcome.panic err ∧
    (Write env c p).2 = Outcome.panic err ∧
    (Write env c p).1.Out = c.Out ∧
    (Write env c p).1.maxLength = max c.maxLength (len (parseSource event)) := by
  have hft : formatTimestamp env event = Outcome.panic err := by
    simp only [formatTimestamp, indexString_of_index hts, hparse]
  have hcomp : composed env event (parseSource event) = Outcome.panic err := by
    simp only [composed, hft, Outcome.bind]
  rw [Write_of_panic c hdec hcomp]
  exact ⟨hft, rfl, rfl, rfl⟩

/-- C7, amended, at the record whose timestamp is `not-a-time`. -/
theorem Write_bad_timestamp_witness :
    stdEnv.jsonDecode badTimestamp =
      Except.ok [("time", Value.str "not-a-time"), ("timestamp", Value.str "not-a-time"),
        ("message", Value.str "hello")] ∧
    stdEnv.timeParse "not-a-time" = Except.error
      "parsing time \"not-a-time\" as \"2006-01-02T15:04:05Z07:00\": cannot parse" ∧
    (Write stdEnv ⟨["earlier line\n"], 2⟩ badTimestamp).2 = Outcome.panic
      "parsing time \"not-a-time\" as \"2006-01-02T15:04:05Z07:00\": cannot parse" ∧
    (Write stdEnv ⟨["earlier line\n"], 2⟩ badTimestamp).1.Out = ["earlier line\n"] :=
  ⟨rfl, rfl,
   (Write_bad_timestamp stdEnv ⟨["earlier line\n"], 2⟩ badTimestamp
      [("time", Value.str "not-a-time"), ("timestamp", Value.str "not-a-time"),
        ("message", Value.str "hello")]
      "not-a-time" "parsing time \"not-a-time\" as \"2006-01-02T15:04:05Z07:00\": cannot parse"
      rfl rfl rfl).2.1,
   (Write_bad_timestamp stdEnv ⟨["earlier line\n"], 2⟩ badTimestamp
      [("time", Value.str "not-a-time"), ("timestamp", Value.str "not-a-time"),
        ("message", Value.str "hello")]
      "not-a-time" "parsing time \"not-a-time\" as \"2006-01-02T15:04:05Z07:00\": cannot parse"
      rfl rfl rfl).2.2.1⟩

/-- For a decodable event with no timestamp key, or whose timestamp is not a
text, `formatTimestamp` returns the bare placeholder `???`; the call hands one
line to the sink and returns the answer of the sink as soon as the source tag
has a colour, which it always has where `int` is 64 bits wide, and a panic of
the call is the one of `hashColor`. -/
theorem Write_of_missing_timestamp (env : Env) (c : Console) (p : List UInt8) (event : Event)
    (hdec : env.jsonDecode p = Except.ok event)
    (hts : ∀ ts, index event env.TimestampFieldName ≠ some (Value.str ts)) :
    formatTimestamp env event = Outcome.ret "???" ∧
    (∀ color, hashColor env.intSize (parseSource event) = Outcome.ret color →
      (Write env c p).1.Out =
        c.Out ++ [env.colorize (segments "???" (formatLevel env event) color (parseSource event)
          (formatMessage env event) (formatFields env event)) ++ "\n"] ∧
      (Write env c p).2 =
        Outcome.ret (env.outWrite c.Out (env.colorize (segments "???" (formatLevel env event)
          color (parseSource event) (formatMessage env event) (formatFields env event))
          ++ "\n"))) ∧
    (env.intSize = IntSize.bits64 →
      ∃ text, (Write env c p).1.Out = c.Out ++ [env.colorize ("??? " ++ text) ++ "\n"] ∧
        (Write env c p).2 =
          Outcome.ret (env.outWrite c.Out (env.colorize ("??? " ++ text) ++ "\n"))) ∧
    (∀ msg, (Write env c p).2 = Outcome.panic msg →
      hashColor env.intSize (parseSource event) = Outcome.panic msg) := by
  have hft : formatTimestamp env event = Outcome.ret "???" := by
    simp only [formatTimestamp, indexString_none_of_index hts]
  have hwrite : ∀ color, hashColor env.intSize (parseSource event) = Outcome.ret color →
      (Write env c p).1.Out =
        c.Out ++ [env.colorize (segments "???" (formatLevel env event) color (parseSource event)
          (formatMessage env event) (formatFields env event)) ++ "\n"] ∧
      (Write env c p).2 =
        Outcome.ret (env.outWrite c.Out (env.colorize (segments "???" (formatLevel env event)
          color (parseSource event) (formatMessage env event) (formatFields env event))
          ++ "\n")) := by
    intro color hcol
    rw [Write_of_composed c hdec (composed_of_parts hft hcol)]
    exact ⟨rfl, rfl⟩
  refine ⟨hft, hwrite, ?_, ?_⟩
  · intro h64
    obtain ⟨color, -, hcol⟩ := hashColor_bits64 (parseSource event)
    rw [← h64] at hcol
    refine ⟨formatLevel env event ++ " " ++ "[" ++ color ++ "]" ++ parseSource event ++
      " | [reset]" ++ formatMessage env event ++ formatFields env event, ?_⟩
    have h := hwrite color hcol
    simp only [segments, String.append_assoc] at h ⊢
    exact h
  · intro msg hpanic
    cases hcol : hashColor env.intSize (parseSource event) with
    | ret color =>
      rw [(hwrite color hcol).2] at hpanic
      exact Outcome.noConfusion hpanic
    | panic m =>
      have hcomp : composed env event (parseSource event) = Outcome.panic m := by
        simp only [composed, hft, formatSource, hcol, Outcome.bind]
      rw [Write_of_panic c hdec hcomp] at hpanic
      simp only [Outcome.panic.injEq] at hpanic
      rw [hpanic]

set_option maxRecDepth 100000 in
/-- C8, evaluated where `int` is 32 bits wide at the record
`{"component":"dagger-engine-session-frontend","message":"ready"}`: the record
decodes, it has no timestamp under any key, and `formatTimestamp` returns the
bare `???`, yet the call panics in `hashColor` and hands nothing to the sink,
where the claim has it succeed and write a line. Where `int` is 64 bits wide
the same call writes its line and returns, and so does every call on a
decodable record without a text timestamp; whatever the width of `int`, the
timestamp is rendered as `???` and a panic of such a call is the one of
`hashColor`. -/
theorem Write_missing_timestamp_int32_evaluation :
    env32.jsonDecode longComponent =
      Except.ok [("component", Value.str "dagger-engine-session-frontend"),
        ("message", Value.str "ready")] ∧
    index [("component", Value.str "dagger-engine-session-frontend"),
      ("message", Value.str "ready")] env32.TimestampFieldName = none ∧
    index [("component", Value.str "dagger-engine-session-frontend"),
      ("message", Value.str "ready")] "timestamp" = none ∧
    formatTimestamp env32 [("component", Value.str "dagger-engine-session-frontend"),
      ("message", Value.str "ready")] = Outcome.ret "???" ∧
    hashColor env32.intSize (parseSource
      [("component", Value.str "dagger-engine-session-frontend"),
        ("message", Value.str "ready")]) =
      Outcome.panic "runtime error: index out of range [-8]" ∧
    Write env32 ⟨["earlier line\n"], 0⟩ longComponent =
      (⟨["earlier line\n"], 30⟩, Outcome.panic "runtime error: index out of range [-8]") ∧
    Write stdEnv ⟨["earlier line\n"], 0⟩ longComponent =
      (⟨["earlier line\n",
         "??? \x1b[33mDBG\x1b[0m \x1b[36mdagger-engine-session-frontend | \x1b[0m\x1b[2mready\x1b[0m\x1b[0m\n"],
        30⟩, Outcome.ret (77, none)) ∧
    (∀ (env : Env) (c : Console) (p : List UInt8) (event : Event),
      env.jsonDecode p = Except.ok event →
      (∀ ts, index event env.TimestampFieldName ≠ some (Value.str ts)) →
      formatTimestamp env event = Outcome.ret "???" ∧
      (env.intSize = IntSize.bits64 →
        ∃ text, (Write env c p).1.Out = c.Out ++ [env.colorize ("??? " ++ text) ++ "\n"] ∧
          (Write env c p).2 =
            Outcome.ret (env.outWrite c.Out (env.colorize ("??? " ++ text) ++ "\n"))) ∧
      (∀ msg, (Write env c p).2 = Outcome.panic msg →
        hashColor env.intSize (parseSource event) = Outcome.panic msg)) := by
  refine ⟨rfl, rfl, rfl, rfl, by decide, by decide, by decide, ?_⟩
  intro env c p event hdec hts
  have h := Write_of_missing_timestamp env c p event hdec hts
  exact ⟨h.1, h.2.2.1, h.2.2.2⟩

/-! ## The auxiliary fields -/

theorem fieldsStep_eq (env : Env) (fields : List String) (kv : String × Value) :
    fieldsStep env fields kv =
      fields ++ (auxEntries env [kv]).map (fieldText env) := by
  obtain ⟨key, value⟩ := kv
  by_cases hk : key ∈ fieldSkipList env
  · simp [fieldsStep, auxEntries, hk]
  · cases value <;> simp [fieldsStep, auxEntries, hk, renderField, shown, fieldText]

theorem auxEntries_cons (env : Env) (kv : String × Value) (rest : Event) :
    auxEntries env (kv :: rest) = auxEntries env [kv] ++ auxEntries env rest := by
  simp only [auxEntries]
  rw [← List.filter_append]
  rfl

theorem fields_foldl (env : Env) (event : Event) (fields : List String) :
    event.foldl (fieldsStep env) fields =
      fields ++ (auxEntries env event).map (fieldText env) := by
  induction event generalizing fields with
  | nil => simp [auxEntries]
  | cons kv rest ih =>
    rw [List.foldl_cons, ih, fieldsStep_eq, auxEntries_cons env kv rest, List.map_append,
      List.append_assoc]

theorem formatFields_eq (env : Env) (event : Event) :
    formatFields env event = fieldsSegment ((auxEntries env event).map (fieldText env)) := by
  simp only [formatFields, fields_foldl, List.nil_append, fieldsSegment]
  cases h : (auxEntries env event).map (fieldText env) with
  | nil => simp
  | cons a l => simp

theorem auxEntries_filter_skip (env : Env) (event : Event) :
    auxEntries env (event.filter (fun kv => decide (kv.1 ∉ fieldSkipList env))) =
      auxEntries env event := by
  simp only [auxEntries, List.filter_filter]
  congr 1
  funext kv
  by_cases hk : kv.1 ∈ fieldSkipList env <;> simp [hk]

theorem auxEntries_filter_shown (env : Env) (event : Event) :
    auxEntries env (event.filter (fun kv => shown kv.2)) = auxEntries env event := by
  simp only [auxEntries, List.filter_filter]
  congr 1
  funext kv
  cases shown kv.2 <;> simp

/-- C9 as worded fails: with the field names zerolog ships the timestamp is
kept under `time`, so `timestamp` is not on the skip-list of the code; an entry
under the key `timestamp` is rendered in the auxiliary segment, and removing
the six keys the claim lists changes what `formatFields` returns. -/
theorem formatFields_timestamp_key_counterexample :
    fieldSkipList stdEnv = ["message", "level", "time", "error", "caller", "component"] ∧
    "timestamp" ∈ specSkipList ∧ "timestamp" ∉ fieldSkipList stdEnv ∧
    formatFields stdEnv
      [("timestamp", Value.str "2023-01-02T15:04:05Z"), ("message", Value.str "hello")] =
      "    [dim]timestamp=2023-01-02T15:04:05Z[reset]" ∧
    formatFields stdEnv
      ([("timestamp", Value.str "2023-01-02T15:04:05Z"), ("message", Value.str "hello")].filter
        (fun kv => decide (kv.1 ∉ specSkipList))) = "" ∧
    stdEnv.jsonDecode timestampKeyRecord =
      Except.ok [("timestamp", Value.str "2023-01-02T15:04:05Z"),
        ("message", Value.str "hello")] ∧
    (Write stdEnv ⟨[], 0⟩ timestampKeyRecord).1.Out =
      ["??? \x1b[33mDBG\x1b[0m \x1b[36msystem | \x1b[0m\x1b[2mhello\x1b[0m    \x1b[2mtimestamp=2023-01-02T15:04:05Z\x1b[0m\x1b[0m\n"] := by
  refine ⟨rfl, by decide, by decide, by decide, by decide, rfl, by decide⟩

/-- C9, amended: no entry under a key of the skip-list reaches the auxiliary
segment: `formatFields` gives the same text once every such entry is removed,
and adding an entry under such a key, with any value and at any place, changes
nothing. The skip-list is the message, level, timestamp, error and caller field
names of zerolog and `component`; with the names zerolog ships these are
`message`, `level`, `time`, `error`, `caller` and `component`, so that an entry
under `time` is never rendered and a text under `timestamp` is rendered as
`timestamp=` and the text. -/
theorem formatFields_skips (env : Env) (event : Event) :
    formatFields env event =
      formatFields env (event.filter (fun kv => decide (kv.1 ∉ fieldSkipList env))) ∧
    (∀ (key : String) (value : Value) (before after : Event), key ∈ fieldSkipList env →
      formatFields env (before ++ (key, value) :: after) = formatFields env (before ++ after)) ∧
    fieldSkipList env =
      [env.MessageFieldName, env.LevelFieldName, env.TimestampFieldName, env.ErrorFieldName,
       env.CallerFieldName, "component"] ∧
    fieldSkipList stdEnv = ["message", "level", "time", "error", "caller", "component"] ∧
    (fieldSkipList env = ["message", "level", "time", "error", "caller", "component"] →
      formatFields env event =
        formatFields env (event.filter (fun kv =>
          decide (kv.1 ∉ ["message", "level", "time", "error", "caller", "component"]))) ∧
      (∀ (value : Value) (before after : Event),
        formatFields env (before ++ ("time", value) :: after) =
          formatFields env (before ++ after)) ∧
      (∀ text : String, formatFields env [("timestamp", Value.str text)] =
        "    [dim]timestamp=" ++ text ++ "[reset]")) := by
  have hfilter : formatFields env event =
      formatFields env (event.filter (fun kv => decide (kv.1 ∉ fieldSkipList env))) := by
    rw [formatFields_eq, formatFields_eq, auxEntries_filter_skip]
  have hinsert : ∀ (key : String) (value : Value) (before after : Event),
      key ∈ fieldSkipList env →
      formatFields env (before ++ (key, value) :: after) =
        formatFields env (before ++ after) := by
    intro key value before after hk
    rw [formatFields_eq, formatFields_eq]
    congr 2
    simp [auxEntries, List.filter_append, List.filter_cons, hk]
  refine ⟨hfilter, hinsert, rfl, rfl, ?_⟩
  intro hnames
  refine ⟨?_, ?_, ?_⟩
  · rw [← hnames]
    exact hfilter
  · intro value before after
    exact hinsert "time" value before after (by rw [hnames]; decide)
  · intro text
    have hkey : "timestamp" ∉ fieldSkipList env := by rw [hnames]; decide
    have hjoin : " ".intercalate ["timestamp" ++ "=" ++ text] = "timestamp" ++ "=" ++ text := rfl
    have hhead : "    [dim]" ++ ("timestamp" ++ "=") = "    [dim]timestamp=" := by decide
    rw [formatFields_eq]
    simp only [auxEntries, List.filter_cons, List.filter_nil, hkey, not_false_eq_true,
      decide_True, shown, Bool.and_self, if_true, List.map_cons, List.map_nil, fieldText,
      fieldsSegment, List.isEmpty_cons, Bool.false_eq_true, if_false]
    rw [hjoin, ← String.append_assoc, hhead]

/-- C9, at a sample event that has every key of the skip-list and one
auxiliary field, where only the auxiliary field is rendered, and at a text
under the key `timestamp`, which is rendered. -/
theorem formatFields_skips_witness :
    formatFields stdEnv
      [("message", Value.str "started"), ("user", Value.str "bob"),
       ("level", Value.str "info"), ("time", Value.str "2023-01-02T15:04:05Z"),
       ("error", Value.str "boom"), ("caller", Value.str "main.go:12"),
       ("component", Value.str "engine")] = "    [dim]user=bob[reset]" ∧
    fieldSkipList stdEnv = ["message", "level", "time", "error", "caller", "component"] ∧
    formatFields stdEnv [("timestamp", Value.str "2023-01-02T15:04:05Z")] =
      "    [dim]timestamp=" ++ "2023-01-02T15:04:05Z" ++ "[reset]" :=
  ⟨(formatFields_skips stdEnv
    [("message", Value.str "started"), ("user", Value.str "bob"),
     ("level", Value.str "info"), ("time", Value.str "2023-01-02T15:04:05Z"),
     ("error", Value.str "boom"), ("caller", Value.str "main.go:12"),
     ("component", Value.str "engine")]).1.trans (by decide),
   rfl,
   ((formatFields_skips stdEnv []).2.2.2.2 rfl).2.2 "2023-01-02T15:04:05Z"⟩

/-- C10: let `E` be the entries of the event outside the skip-list whose value
is a text, a number or null. `formatFields` returns the empty text when `E` is
empty and otherwise four spaces, `[dim]`, the renderings of the entries of `E`
joined by single spaces, and `[reset]`. The renderings come in the order the
map is visited: whatever that order, they are a permutation of the renderings
of `E`, each entry once. A text renders as `key=value`, null as `key=null`, an
`int` in decimal; booleans, arrays and objects are not in `E` and removing
them changes nothing. -/
theorem formatFields_segment (env : Env) (event : Event) :
    formatFields env event =
      (if (auxEntries env event).isEmpty then ""
       else "    [dim]" ++ " ".intercalate ((auxEntries env event).map (fieldText env)) ++
         "[reset]") ∧
    (∀ kv, kv ∈ auxEntries env event ↔
      kv ∈ event ∧ kv.1 ∉ fieldSkipList env ∧
        ((∃ s, kv.2 = Value.str s) ∨ (∃ n, kv.2 = Value.int n) ∨
         (∃ x, kv.2 = Value.float64 x) ∨ kv.2 = Value.null)) ∧
    (∀ order : Event, order.Perm event →
      ∃ texts : List String, texts.Perm ((auxEntries env event).map (fieldText env)) ∧
        formatFields env order =
          (if texts.isEmpty then ""
           else "    [dim]" ++ " ".intercalate texts ++ "[reset]")) ∧
    (∀ key v, fieldText env (key, Value.str v) = key ++ "=" ++ v) ∧
    (∀ key, fieldText env (key, Value.null) = key ++ "=null") ∧
    (∀ key n, fieldText env (key, Value.int n) = key ++ "=" ++ fmtIntV n) ∧
    formatFields env event = formatFields env (event.filter (fun kv => shown kv.2)) ∧
    (∀ b, shown (Value.bool b) = false) ∧ (∀ xs, shown (Value.arr xs) = false) ∧
    (∀ kvs, shown (Value.obj kvs) = false) := by
  refine ⟨?_, ?_, ?_, fun _ _ => rfl, fun _ => rfl, fun _ _ => rfl, ?_,
    fun _ => rfl, fun _ => rfl, fun _ => rfl⟩
  · rw [formatFields_eq, fieldsSegment]
    cases auxEntries env event <;> rfl
  · intro kv
    obtain ⟨key, value⟩ := kv
    simp only [auxEntries, List.mem_filter, Bool.and_eq_true, decide_eq_true_eq]
    cases value <;> simp [shown]
  · intro order hperm
    refine ⟨(auxEntries env order).map (fieldText env), ?_, ?_⟩
    · exact (hperm.filter _).map _
    · rw [formatFields_eq, fieldsSegment]
  · rw [formatFields_eq, formatFields_eq, auxEntries_filter_shown]

/-- C10, at a sample event with a text, a boolean, a null, an object and an
`int`: the boolean and the object are left out. -/
theorem formatFields_segment_witness :
    formatFields stdEnv
      [("user", Value.str "bob"), ("cached", Value.bool true), ("digest", Value.null),
       ("labels", Value.obj []), ("retries", Value.int (-3))] =
      "    [dim]user=bob digest=null retries=-3[reset]" ∧
    formatFields stdEnv [("cached", Value.bool true), ("labels", Value.obj [])] = "" :=
  ⟨(formatFields_segment stdEnv
      [("user", Value.str "bob"), ("cached", Value.bool true), ("digest", Value.null),
       ("labels", Value.obj []), ("retries", Value.int (-3))]).1.trans (by decide),
   (formatFields_segment stdEnv
      [("cached", Value.bool true), ("labels", Value.obj [])]).1.trans (by decide)⟩

/-! ## Numbers in the auxiliary fields -/

theorem wrapInt64_of_fits {x : Int} (h1 : - 2 ^ 63 ≤ x) (h2 : x < 2 ^ 63) : wrapInt64 x = x := by
  unfold wrapInt64
  omega

theorem durationOfFloat_natCast (env : Env) (v : Nat) (h : (v : Int) < 2 ^ 63) :
    durationOfFloat env (v : ℚ) = (v : Int) := by
  unfold durationOfFloat
  simp only [Rat.num_natCast, Rat.den_natCast, Nat.cast_one, Int.tdiv_one]
  rw [if_pos]
  constructor <;> omega

theorem lessThanHalf_of_small {x y : Int} (hx : 0 ≤ x) (hx2 : x < 2 ^ 62) (hy : 0 ≤ y)
    (hy2 : y < 2 ^ 64) : lessThanHalf x y = decide (x + x < y) := by
  unfold lessThanHalf toUint64
  rw [Int.emod_eq_of_lt hx (by omega), Int.emod_eq_of_lt hy hy2,
    Int.emod_eq_of_lt (by omega) (by omega)]

theorem DurationRound_tenth (v : Nat) (hv : (v : Int) * 1000000 < 2 ^ 63)
    (hr : (nearestHundred v : Int) * 1000000 < 2 ^ 63) :
    DurationRound ((v : Int) * 1000000) 100000000 = (nearestHundred v : Int) * 1000000 := by
  unfold nearestHundred at hr ⊢
  have hrem : ((v : Int) * 1000000) % 100000000 = ((v % 100 : Nat) : Int) * 1000000 := by
    have h := Nat.mul_mod_mul_right 1000000 v 100
    have h2 : ((v * 1000000 % (100 * 1000000) : Nat) : Int) = ((v % 100 * 1000000 : Nat) : Int) := by
      rw [h]
    push_cast at h2
    simpa using h2
  have hmod : Int.tmod ((v : Int) * 1000000) 100000000 = ((v % 100 : Nat) : Int) * 1000000 := by
    rw [Int.tmod_eq_emod (by omega) (by omega), hrem]
  have ht : v % 100 < 100 := Nat.mod_lt _ (by norm_num)
  have hq : v = 100 * (v / 100) + v % 100 := (Nat.div_add_mod v 100).symm
  have hlh : lessThanHalf (((v % 100 : Nat) : Int) * 1000000) 100000000 =
      decide (((v % 100 : Nat) : Int) * 1000000 + ((v % 100 : Nat) : Int) * 1000000 < 100000000) :=
    lessThanHalf_of_small (by omega) (by omega) (by norm_num) (by norm_num)
  unfold DurationRound maxDuration minDuration
  simp only [hmod, hlh, decide_eq_true_eq]
  rw [if_neg (by norm_num), if_neg (by omega)]
  by_cases hlt : v % 100 < 50
  · have h1 : ((v + 50) / 100 * 100 : Nat) = v - v % 100 := by omega
    rw [if_pos (by omega), wrapInt64_of_fits (by omega) (by omega), h1]
    omega
  · have h1 : ((v + 50) / 100 * 100 : Nat) = v - v % 100 + 100 := by omega
    rw [h1] at hr ⊢
    have hw : wrapInt64 ((v : Int) * 1000000 + 100000000 - ((v % 100 : Nat) : Int) * 1000000) =
        (v : Int) * 1000000 + 100000000 - ((v % 100 : Nat) : Int) * 1000000 :=
      wrapInt64_of_fits (by omega) (by omega)
    rw [if_neg (by omega), hw, if_pos (by omega)]
    omega

theorem fieldText_duration (env : Env) (key : String) (v : Nat)
    (hv : (v : Int) * 1000000 < 2 ^ 63)
    (hr : (nearestHundred v : Int) * 1000000 < 2 ^ 63) :
    fieldText env (key, Value.float64 (v : ℚ)) =
      key ++ "=" ++ DurationString ((nearestHundred v : Int) * Millisecond) := by
  have hm : Millisecond = 1000000 := by decide
  have h100 : 100 * Millisecond = 100000000 := by decide
  simp only [fieldText, durationOfFloat_natCast env v (by omega), hm]
  rw [wrapInt64_of_fits (by omega) hv, show (100 : Int) * 1000000 = 100000000 by norm_num,
    DurationRound_tenth v hv hr]

theorem formatFields_of_mem (env : Env) (event : Event) (kv : String × Value)
    (h : kv ∈ auxEntries env event) :
    ∃ before after : List String,
      formatFields env event =
        "    [dim]" ++ " ".intercalate (before ++ fieldText env kv :: after) ++ "[reset]" := by
  have hmem : fieldText env kv ∈ (auxEntries env event).map (fieldText env) :=
    List.mem_map_of_mem _ h
  obtain ⟨before, after, hsplit⟩ := List.append_of_mem hmem
  refine ⟨before, after, ?_⟩
  rw [formatFields_eq, hsplit, fieldsSegment]
  cases before <;> rfl

theorem mem_auxEntries {env : Env} {event : Event} {kv : String × Value}
    (hmem : kv ∈ event) (hkey : kv.1 ∉ fieldSkipList env) (hshown : shown kv.2 = true) :
    kv ∈ auxEntries env event := by
  simp only [auxEntries, List.mem_filter, Bool.and_eq_true, decide_eq_true_eq]
  exact ⟨hmem, hkey, hshown⟩

theorem decode_single_float {p : List UInt8} {key : String} {x : ℚ}
    (h : (match stdEnv.jsonDecode p with
          | Except.ok [(k, Value.float64 y)] => decide (k = key ∧ y = x)
          | _ => false) = true) :
    stdEnv.jsonDecode p = Except.ok [(key, Value.float64 x)] := by
  split at h
  · rename_i k y heq
    simp only [decide_eq_true_eq] at h
    rw [heq, h.1, h.2]
  · exact absurd h (by simp)

set_option maxRecDepth 100000 in
/-- C11, evaluated at the record `{"count":5}`: the decoder stores the number
as a `float64`, so the field goes through the duration branch and the line
shows `count=0s`; only a value of type `int`, which the decoder never
produces, is printed in decimal as `count=5`. -/
theorem Write_integer_field_evaluation :
    stdEnv.jsonDecode countRecord = Except.ok [("count", Value.float64 5)] ∧
    formatFields stdEnv [("count", Value.float64 5)] = "    [dim]count=0s[reset]" ∧
    (Write stdEnv ⟨[], 0⟩ countRecord).1.Out =
      ["??? \x1b[33mDBG\x1b[0m \x1b[36msystem | \x1b[0m    \x1b[2mcount=0s\x1b[0m\x1b[0m\n"] ∧
    formatFields stdEnv [("count", Value.int 5)] = "    [dim]count=5[reset]" :=
  ⟨decode_single_float (by decide!), by decide!, by decide!, by decide⟩

theorem nearestHundred_spec (v : Nat) :
    nearestHundred v % 100 = 0 ∧ nearestHundred v ≤ v + 50 ∧ v < nearestHundred v + 50 := by
  unfold nearestHundred
  omega

set_option maxRecDepth 100000 in
/-- C12: an auxiliary field whose value is a `float64` holding a whole number
`v` of milliseconds, with `v` and its rounding within an `int64` count of
nanoseconds, is rendered as the key, `=`, and the text `Duration.String` gives
to the multiple of 100 milliseconds nearest to `v`, the larger one on a tie;
the entry takes its place among the renderings of the segment. For 1500
milliseconds the segment is the key followed by `=1.5s`. -/
theorem formatFields_duration (env : Env) (event : Event) (key : String) (v : Nat)
    (hmem : (key, Value.float64 (v : ℚ)) ∈ event)
    (hkey : key ∉ fieldSkipList env)
    (hv : (v : Int) * 1000000 < 2 ^ 63)
    (hr : (nearestHundred v : Int) * 1000000 < 2 ^ 63) :
    (∃ before after : List String,
      formatFields env event =
        "    [dim]" ++ " ".intercalate
          (before ++ (key ++ "=" ++ DurationString ((nearestHundred v : Int) * Millisecond))
            :: after) ++ "[reset]") ∧
    (nearestHundred v % 100 = 0 ∧ nearestHundred v ≤ v + 50 ∧ v < nearestHundred v + 50) ∧
    formatFields env [(key, Value.float64 1500)] = "    [dim]" ++ (key ++ "=" ++ "1.5s") ++ "[reset]" ∧
    DurationString ((nearestHundred 1500 : Int) * Millisecond) = "1.5s" ∧
    DurationString ((nearestHundred 1449 : Int) * Millisecond) = "1.4s" ∧
    DurationString ((nearestHundred 1450 : Int) * Millisecond) = "1.5s" ∧
    DurationString ((nearestHundred 49 : Int) * Millisecond) = "0s" ∧
    DurationString ((nearestHundred 50 : Int) * Millisecond) = "100ms" ∧
    DurationString ((nearestHundred 59960 : Int) * Millisecond) = "1m0s" := by
  refine ⟨?_, nearestHundred_spec v, ?_, by decide, by decide, by decide, by decide, by decide,
    by decide⟩
  · obtain ⟨before, after, h⟩ := formatFields_of_mem env event (key, Value.float64 (v : ℚ))
      (mem_auxEntries hmem hkey rfl)
    rw [fieldText_duration env key v hv hr] at h
    exact ⟨before, after, h⟩
  · have hcast : (1500 : ℚ) = ((1500 : Nat) : ℚ) := by norm_num
    have haux : auxEntries env [(key, Value.float64 (1500 : ℚ))] =
        [(key, Value.float64 (1500 : ℚ))] := by
      simp [auxEntries, hkey, shown]
    rw [formatFields_eq, haux, hcast,  List.map_singleton,
      fieldText_duration env key 1500 (by norm_num) (by decide)]
    have hd : DurationString ((nearestHundred 1500 : Int) * Millisecond) = "1.5s" := by decide
    rw [hd]
    rfl

set_option maxRecDepth 100000 in
/-- C12, at a record with a duration of 2449 milliseconds, which rounds to 2.4
seconds. -/
theorem formatFields_duration_witness :
    ("elapsed", Value.float64 ((2449 : Nat) : ℚ)) ∈
      [("message", Value.str "done"), ("elapsed", Value.float64 ((2449 : Nat) : ℚ))] ∧
    "elapsed" ∉ fieldSkipList stdEnv ∧
    (∃ before after : List String,
      formatFields stdEnv
          [("message", Value.str "done"), ("elapsed", Value.float64 ((2449 : Nat) : ℚ))] =
        "    [dim]" ++ " ".intercalate
          (before ++ ("elapsed" ++ "=" ++ DurationString ((nearestHundred 2449 : Int) * Millisecond))
            :: after) ++ "[reset]") ∧
    DurationString ((nearestHundred 2449 : Int) * Millisecond) = "2.4s" :=
  ⟨List.mem_cons_of_mem _ (List.mem_cons_self _ _), by decide,
   (formatFields_duration stdEnv
      [("message", Value.str "done"), ("elapsed", Value.float64 ((2449 : Nat) : ℚ))]
      "elapsed" 2449 (List.mem_cons_of_mem _ (List.mem_cons_self _ _)) (by decide)
      (by norm_num) (by decide)).1,
   by decide⟩

theorem formatLevel_badges_aux (env : Env) (event : Event) :
    (index event env.LevelFieldName = some (Value.str "trace") →
      formatLevel env event = "[magenta]TRC[reset]") ∧
    (index event env.LevelFieldName = some (Value.str "debug") →
      formatLevel env event = "[yellow]DBG[reset]") ∧
    (index event env.LevelFieldName = some (Value.str "info") →
      formatLevel env event = "[green]INF[reset]") ∧
    (index event env.LevelFieldName = some (Value.str "warn") →
      formatLevel env event = "[red]WRN[reset]") ∧
    (index event env.LevelFieldName = some (Value.str "error") →
      formatLevel env event = "[red]ERR[reset]") ∧
    (index event env.LevelFieldName = some (Value.str "fatal") →
      formatLevel env event = "[red]FTL[reset]") ∧
    (index event env.LevelFieldName = some (Value.str "panic") →
      formatLevel env event = "[red]PNC[reset]") := by
  obtain ⟨h1, h2, h3, h4, h5, h6, h7⟩ := parseLevel_names env.foldLevelNames
  refine ⟨?_, ?_, ?_, ?_, ?_, ?_, ?_⟩ <;> intro h <;>
    rw [formatLevel, eventLevel_of_text h] <;>
    first
      | (rw [h1]; decide) | (rw [h2]; decide) | (rw [h3]; decide) | (rw [h4]; decide)
      | (rw [h5]; decide) | (rw [h6]; decide) | (rw [h7]; decide)

/-! ## Emphasis and unknown levels -/

theorem formatMessage_of_level {env : Env} {event : Event} {l m : String}
    (hl : index event env.LevelFieldName = some (Value.str l))
    (hm : index event env.MessageFieldName = some (Value.str m)) :
    formatMessage env event =
      emphasis (ParseLevel env.foldLevelNames l) (messageBody env event m) := by
  simp only [formatMessage, indexString_of_index hm, eventLevel_of_text hl]

theorem messageBody_congr {env : Env} {ev1 ev2 : Event} (m : String)
    (herr : index ev1 env.ErrorFieldName = index ev2 env.ErrorFieldName) :
    messageBody env ev1 m = messageBody env ev2 m := by
  simp only [messageBody, indexString, herr]

theorem parseLevel_alert (fold : Bool) {l : String}
    (h : l = "error" ∨ l = "fatal" ∨ l = "panic") :
    ParseLevel fold l = ErrorLevel ∨ ParseLevel fold l = FatalLevel ∨
      ParseLevel fold l = PanicLevel := by
  obtain ⟨-, -, -, -, h5, h6, h7⟩ := parseLevel_names fold
  rcases h with h | h | h
  · exact Or.inl (h ▸ h5)
  · exact Or.inr (Or.inl (h ▸ h6))
  · exact Or.inr (Or.inr (h ▸ h7))

theorem emphasis_alert {level : Level}
    (h : level = ErrorLevel ∨ level = FatalLevel ∨ level = PanicLevel) (body : String) :
    emphasis level body = "[red]" ++ body ++ "[reset]" := by
  rcases h with h | h | h <;> subst h <;> rfl

/-- C13, refuted as stated: two records that differ only in their level, warn
in one and error in the other, get different message segments, yellow for
warn and red for error, and the badge of warn is red, not yellow. -/
theorem formatMessage_warn_counterexample :
    formatMessage stdEnv [("level", Value.str "warn"), ("message", Value.str "disk almost full")]
      = "[yellow]disk almost full[reset]" ∧
    formatMessage stdEnv [("level", Value.str "error"), ("message", Value.str "disk almost full")]
      = "[red]disk almost full[reset]" ∧
    formatMessage stdEnv [("level", Value.str "warn"), ("message", Value.str "disk almost full")]
      ≠ formatMessage stdEnv
          [("level", Value.str "error"), ("message", Value.str "disk almost full")] ∧
    formatLevel stdEnv [("level", Value.str "warn"), ("message", Value.str "disk almost full")]
      = "[red]WRN[reset]" := by
  refine ⟨by decide, by decide, by decide, by decide⟩

/-- C13, amended: two events that carry the same message and error and whose
levels are among error, fatal and panic get the same message segment, the
body wrapped in the red markup that their badges also use. The message of a
warn event is wrapped in yellow markup, while its badge is red. -/
theorem formatMessage_alert_levels (env : Env) (ev1 ev2 : Event) (l1 l2 m : String)
    (h1 : index ev1 env.LevelFieldName = some (Value.str l1))
    (h2 : index ev2 env.LevelFieldName = some (Value.str l2))
    (hm1 : index ev1 env.MessageFieldName = some (Value.str m))
    (hm2 : index ev2 env.MessageFieldName = some (Value.str m))
    (herr : index ev1 env.ErrorFieldName = index ev2 env.ErrorFieldName)
    (hl2 : l2 = "error" ∨ l2 = "fatal" ∨ l2 = "panic") :
    ((l1 = "error" ∨ l1 = "fatal" ∨ l1 = "panic") →
      formatMessage env ev1 = formatMessage env ev2 ∧
      ∃ body badge, formatMessage env ev1 = "[red]" ++ body ++ "[reset]" ∧
        formatLevel env ev1 = "[red]" ++ badge ++ "[reset]") ∧
    (l1 = "warn" →
      ∃ body, formatMessage env ev1 = "[yellow]" ++ body ++ "[reset]" ∧
        formatMessage env ev2 = "[red]" ++ body ++ "[reset]" ∧
        formatLevel env ev1 = "[red]WRN[reset]") := by
  have hbody : messageBody env ev1 m = messageBody env ev2 m := messageBody_congr m herr
  have hmsg2 : formatMessage env ev2 = "[red]" ++ messageBody env ev2 m ++ "[reset]" := by
    rw [formatMessage_of_level h2 hm2, emphasis_alert (parseLevel_alert _ hl2)]
  constructor
  · intro hl1
    have hmsg1 : formatMessage env ev1 = "[red]" ++ messageBody env ev1 m ++ "[reset]" := by
      rw [formatMessage_of_level h1 hm1, emphasis_alert (parseLevel_alert _ hl1)]
    refine ⟨by rw [hmsg1, hmsg2, hbody], messageBody env ev1 m, ?_⟩
    obtain ⟨-, -, -, -, h5, h6, h7⟩ := formatLevel_badges_aux env ev1
    rcases hl1 with h | h | h
    · exact ⟨"ERR", hmsg1, h5 (h ▸ h1)⟩
    · exact ⟨"FTL", hmsg1, h6 (h ▸ h1)⟩
    · exact ⟨"PNC", hmsg1, h7 (h ▸ h1)⟩
  · intro hl1
    subst hl1
    obtain ⟨-, -, -, hw, -, -, -⟩ := parseLevel_names env.foldLevelNames
    obtain ⟨-, -, -, h4, -, -, -⟩ := formatLevel_badges_aux env ev1
    refine ⟨messageBody env ev1 m, ?_, by rw [hmsg2, hbody], h4 h1⟩
    rw [formatMessage_of_level h1 hm1, hw]
    rfl

/-- C13, amended, at two records that differ in their level only, fatal and
panic. -/
theorem formatMessage_alert_levels_witness :
    formatMessage stdEnv
        [("level", Value.str "fatal"), ("message", Value.str "out of disk"),
         ("error", Value.str "ENOSPC")] =
      formatMessage stdEnv
        [("level", Value.str "panic"), ("message", Value.str "out of disk"),
         ("error", Value.str "ENOSPC")] :=
  ((formatMessage_alert_levels stdEnv
      [("level", Value.str "fatal"), ("message", Value.str "out of disk"),
       ("error", Value.str "ENOSPC")]
      [("level", Value.str "panic"), ("message", Value.str "out of disk"),
       ("error", Value.str "ENOSPC")]
      "fatal" "panic" "out of disk" rfl rfl rfl rfl rfl (Or.inr (Or.inr rfl))).1
    (Or.inr (Or.inl rfl))).1

theorem matchLevelName_eq (fold : Bool) (l : String) :
    matchLevelName (if fold then EqualFold else fun a b => decide (a = b)) l levelNames =
      matchLevelName (levelNameEq fold) l levelNames := by
  cases fold <;> rfl

theorem parseLevel_unknown (fold : Bool) (l : String)
    (hname : ∀ name ∈ severityNames, levelNameEq fold l name = false)
    (hnum : ∀ i, Atoi l = some i → i < -1 ∨ 5 < i) :
    ParseLevel fold l < -1 ∨ 5 < ParseLevel fold l := by
  have h1 := hname "trace" (by decide)
  have h2 := hname "debug" (by decide)
  have h3 := hname "info" (by decide)
  have h4 := hname "warn" (by decide)
  have h5 := hname "error" (by decide)
  have h6 := hname "fatal" (by decide)
  have h7 := hname "panic" (by decide)
  have hnol : NoLevel < -1 ∨ 5 < NoLevel := Or.inr (by decide)
  have hdis : Disabled < -1 ∨ 5 < Disabled := Or.inr (by decide)
  unfold ParseLevel
  rw [matchLevelName_eq]
  simp only [levelNames, matchLevelName, h1, h2, h3, h4, h5, h6, h7, Bool.false_eq_true,
    if_false]
  cases h8 : levelNameEq fold l "disabled"
  · cases h9 : levelNameEq fold l ""
    · simp only [Bool.false_eq_true, if_false]
      cases hat : Atoi l with
      | none => exact hnol
      | some i =>
        simp only
        split
        · exact hnol
        · exact hnum i hat
    · simpa using hnol
  · simpa using hdis

theorem formatLevel_of_unknown {env : Env} {event : Event}
    (h : eventLevel env event < -1 ∨ 5 < eventLevel env event) :
    formatLevel env event = "[bold]???[reset]" := by
  unfold formatLevel
  generalize eventLevel env event = level at h
  have ne : ∀ known : Level, ¬ (known < -1 ∨ 5 < known) → level ≠ known := by
    intro known hk heq
    exact hk (heq ▸ h)
  simp only
  rw [if_neg (ne TraceLevel (by decide)), if_neg (ne DebugLevel (by decide)),
    if_neg (ne InfoLevel (by decide)), if_neg (ne WarnLevel (by decide)),
    if_neg (ne ErrorLevel (by decide)), if_neg (ne FatalLevel (by decide)),
    if_neg (ne PanicLevel (by decide))]

/-- C14, refuted as stated: the level text `3` is none of the seven names, yet
`ParseLevel` reads it as the number of the error level and the badge is
`ERR`, whether the names are compared exactly or with `EqualFold`; with
`EqualFold` the text `ERROR` gets `ERR` as well. -/
theorem formatLevel_numeric_level_counterexample :
    "3" ∉ severityNames ∧
    formatLevel stdEnv [("level", Value.str "3")] = "[red]ERR[reset]" ∧
    formatLevel foldEnv [("level", Value.str "3")] = "[red]ERR[reset]" ∧
    formatLevel stdEnv [("level", Value.str "3")] ≠ "[bold]???[reset]" ∧
    "ERROR" ∉ severityNames ∧
    formatLevel foldEnv [("level", Value.str "ERROR")] = "[red]ERR[reset]" := by
  refine ⟨by decide, by decide, by decide, by decide, by decide, by decide⟩

/-- C14, amended: an event whose level text matches none of the seven names,
in the comparison `ParseLevel` makes (exact, or `EqualFold` in the releases of
zerolog that fold case), and is not the decimal text of a number from -1 to 5,
gets `[bold]???[reset]` from `formatLevel`; so do `bogus` always and `ERROR`
and `Warn` under the exact comparison. The decimal text of a number from -1
to 5 names the level of that number: `3` gets the badge `ERR`. -/
theorem formatLevel_unknown (env : Env) (event : Event) (l : String)
    (h : index event env.LevelFieldName = some (Value.str l)) :
    ((∀ name ∈ severityNames, levelNameEq env.foldLevelNames l name = false) →
      (∀ i, Atoi l = some i → i < -1 ∨ 5 < i) →
      formatLevel env event = "[bold]???[reset]") ∧
    (l = "bogus" → formatLevel env event = "[bold]???[reset]") ∧
    (env.foldLevelNames = false → l = "ERROR" ∨ l = "Warn" →
      formatLevel env event = "[bold]???[reset]") ∧
    (l = "3" → formatLevel env event = "[red]ERR[reset]") ∧
    (l = "-1" → formatLevel env event = "[magenta]TRC[reset]") ∧
    (l = "0" → formatLevel env event = "[yellow]DBG[reset]") ∧
    (env.foldLevelNames = false →
      ((∀ name ∈ severityNames, levelNameEq env.foldLevelNames l name = false) ↔
        l ∉ severityNames)) := by
  have hlevel := eventLevel_of_text h
  refine ⟨?_, ?_, ?_, ?_, ?_, ?_, ?_⟩
  · intro hname hnum
    apply formatLevel_of_unknown
    rw [hlevel]
    exact parseLevel_unknown _ l hname hnum
  · intro hl
    subst hl
    rw [formatLevel, hlevel]
    cases env.foldLevelNames <;> decide
  · intro hfold hl
    rw [formatLevel, hlevel, hfold]
    rcases hl with hl | hl <;> subst hl <;> decide
  · intro hl
    subst hl
    rw [formatLevel, hlevel]
    cases env.foldLevelNames <;> decide
  · intro hl
    subst hl
    rw [formatLevel, hlevel]
    cases env.foldLevelNames <;> decide
  · intro hl
    subst hl
    rw [formatLevel, hlevel]
    cases env.foldLevelNames <;> decide
  · intro hfold
    rw [hfold]
    simp [levelNameEq, severityNames]

/-- C14, amended, at a record whose level is the text `verbose`. -/
theorem formatLevel_unknown_witness :
    index [("level", Value.str "verbose"), ("message", Value.str "hello")] stdEnv.LevelFieldName
      = some (Value.str "verbose") ∧
    (∀ name ∈ severityNames, levelNameEq stdEnv.foldLevelNames "verbose" name = false) ∧
    (∀ i, Atoi "verbose" = some i → i < -1 ∨ 5 < i) ∧
    formatLevel stdEnv [("level", Value.str "verbose"), ("message", Value.str "hello")]
      = "[bold]???[reset]" :=
  ⟨rfl, by decide,
   fun i hi => Option.noConfusion ((show Atoi "verbose" = none by decide) ▸ hi),
   (formatLevel_unknown stdEnv [("level", Value.str "verbose"), ("message", Value.str "hello")]
      "verbose" rfl).1 (by decide)
      (fun i hi => Option.noConfusion ((show Atoi "verbose" = none by decide) ▸ hi))⟩

/-! ## The palette index -/

theorem hashColor_bits64_index (text : String) :
    ∃ color, colors.get? (adler32 (bytes text) % 11) = some color ∧
      hashColor IntSize.bits64 text = Outcome.ret color := by
  have hlt := adler32_lt (bytes text)
  have hto : toInt IntSize.bits64 (adler32 (bytes text)) = (adler32 (bytes text) : Int) := by
    simp only [toInt, IntSize.bits]
    omega
  have hlen : (colors.length : Int) = 11 := by decide
  have hmod : Int.tmod (adler32 (bytes text) : Int) 11 = ((adler32 (bytes text) % 11 : Nat) : Int) := by
    rw [Int.tmod_eq_emod (Int.ofNat_nonneg _) (by norm_num)]
    generalize adler32 (bytes text) = h
    omega
  have hget : ∃ c, colors.get? (adler32 (bytes text) % 11) = some c := by
    have : adler32 (bytes text) % 11 < colors.length := by
      have h11 : colors.length = 11 := by decide
      rw [h11]
      exact Nat.mod_lt _ (by norm_num)
    exact ⟨colors.get ⟨_, this⟩, List.get?_eq_get this⟩
  obtain ⟨c, hc⟩ := hget
  refine ⟨c, hc, ?_⟩
  simp only [hashColor, hto, hlen, hmod]
  rw [if_neg (by omega), Int.toNat_ofNat, hc]

set_option maxRecDepth 100000 in
/-- C15, evaluated where `int` is 32 bits wide: the checksum of the alphabet
is 2424703776, more than the largest `int`, so `int(h)` is negative, the
remainder is -4 and indexing the palette panics; a record with the component
`dagger-engine-session-frontend` makes `Write` panic in the same way. Where
`int` is 64 bits wide every text gets the palette entry at the index checksum
mod 11, and the alphabet gets `green`. -/
theorem hashColor_int32_evaluation :
    adler32 (bytes "abcdefghijklmnopqrstuvwxyz") = 2424703776 ∧
    toInt IntSize.bits32 2424703776 = -1870263520 ∧
    Int.tmod (-1870263520) (colors.length : Int) = -4 ∧
    hashColor IntSize.bits32 "abcdefghijklmnopqrstuvwxyz" =
      Outcome.panic "runtime error: index out of range [-4]" ∧
    hashColor IntSize.bits64 "abcdefghijklmnopqrstuvwxyz" = Outcome.ret "green" ∧
    Write env32 ⟨[], 0⟩ longComponent =
      (⟨[], 30⟩, Outcome.panic "runtime error: index out of range [-8]") ∧
    (Write stdEnv ⟨[], 0⟩ longComponent).1.Out =
      ["??? \x1b[33mDBG\x1b[0m \x1b[36mdagger-engine-session-frontend | \x1b[0m\x1b[2mready\x1b[0m\x1b[0m\n"] ∧
    (∀ text, ∃ color, colors.get? (adler32 (bytes text) % 11) = some color ∧
      hashColor IntSize.bits64 text = Outcome.ret color) := by
  refine ⟨by decide, by decide, by decide, by decide, by decide, by decide, by decide,
    hashColor_bits64_index⟩

/-! ## Which entries reach the auxiliary segment -/

theorem fieldText_key (env : Env) (key : String) (value : Value) (h : shown value = true) :
    ∃ rest, fieldText env (key, value) = key ++ "=" ++ rest := by
  cases value with
  | str v => exact ⟨v, rfl⟩
  | int n => exact ⟨fmtIntV n, rfl⟩
  | float64 x => exact ⟨_, rfl⟩
  | null => exact ⟨"null", by simp [fieldText, String.append_assoc]⟩
  | bool b => exact absurd h (by simp [shown])
  | arr xs => exact absurd h (by simp [shown])
  | obj kvs => exact absurd h (by simp [shown])

/-- C18, refuted as stated: the entry `cached`, a boolean outside the
skip-list, is not in the auxiliary segment, which is empty, and the line
written for the record shows nothing of it. -/
theorem formatFields_boolean_counterexample :
    stdEnv.jsonDecode cachedRecord =
      Except.ok [("message", Value.str "pulled"), ("cached", Value.bool true)] ∧
    "cached" ∉ fieldSkipList stdEnv ∧
    formatFields stdEnv [("message", Value.str "pulled"), ("cached", Value.bool true)] = "" ∧
    formatFields stdEnv [("labels", Value.obj [("a", Value.str "b")]),
      ("tags", Value.arr [Value.str "x"])] = "" ∧
    (Write stdEnv ⟨[], 0⟩ cachedRecord).1.Out =
      ["??? \x1b[33mDBG\x1b[0m \x1b[36msystem | \x1b[0m\x1b[2mpulled\x1b[0m\x1b[0m\n"] := by
  refine ⟨rfl, by decide, by decide, by decide, by decide⟩

/-- C18, amended: an entry of the event whose key is outside the skip-list and
whose value is a text, a number or null appears among the renderings of the
auxiliary segment, as the key, `=` and a text; an entry whose value is of
another kind (a boolean, an array, an object) leaves the segment as it is
without the entry. -/
theorem formatFields_shows_entry (env : Env) (event : Event) (key : String) (value : Value)
    (hmem : (key, value) ∈ event) (hkey : key ∉ fieldSkipList env) :
    (shown value = true →
      ∃ (rest : String) (before after : List String),
        formatFields env event =
          "    [dim]" ++ " ".intercalate (before ++ (key ++ "=" ++ rest) :: after) ++
            "[reset]") ∧
    (shown value = false →
      ∀ before after : Event, event = before ++ (key, value) :: after →
        formatFields env event = formatFields env (before ++ after)) ∧
    (shown value = true ↔
      (∃ s, value = Value.str s) ∨ (∃ n, value = Value.int n) ∨
        (∃ x, value = Value.float64 x) ∨ value = Value.null) := by
  refine ⟨?_, ?_, ?_⟩
  · intro hshown
    obtain ⟨rest, hrest⟩ := fieldText_key env key value hshown
    obtain ⟨before, after, h⟩ := formatFields_of_mem env event (key, value)
      (mem_auxEntries hmem hkey hshown)
    rw [hrest] at h
    exact ⟨rest, before, after, h⟩
  · intro hshown before after hsplit
    rw [hsplit, formatFields_eq, formatFields_eq]
    congr 2
    simp [auxEntries, List.filter_append, List.filter_cons, hshown]
  · cases value <;> simp [shown]

/-- C18, amended, at a record with a text field and a boolean field. -/
theorem formatFields_shows_entry_witness :
    ("image", Value.str "alpine") ∈
      [("image", Value.str "alpine"), ("cached", Value.bool true)] ∧
    "image" ∉ fieldSkipList stdEnv ∧
    (∃ (rest : String) (before after : List String),
      formatFields stdEnv [("image", Value.str "alpine"), ("cached", Value.bool true)] =
        "    [dim]" ++ " ".intercalate (before ++ ("image" ++ "=" ++ rest) :: after) ++
          "[reset]") ∧
    formatFields stdEnv [("image", Value.str "alpine"), ("cached", Value.bool true)] =
      "    [dim]image=alpine[reset]" :=
  ⟨List.mem_cons_self _ _, by decide,
   (formatFields_shows_entry stdEnv [("image", Value.str "alpine"), ("cached", Value.bool true)]
      "image" (Value.str "alpine") (List.mem_cons_self _ _) (by decide)).1 rfl,
   by decide⟩

/-! ## The width hint -/

theorem Write_maxLength_ok {env : Env} {p : List UInt8} {event : Event} (c : Console)
    (hdec : env.jsonDecode p = Except.ok event) :
    (Write env c p).1.maxLength = max c.maxLength (len (parseSource event)) := by
  cases hcomp : composed env event (parseSource event) with
  | ret text => rw [Write_of_composed c hdec hcomp]
  | panic msg => rw [Write_of_panic c hdec hcomp]

theorem Write_maxLength_error {env : Env} {p : List UInt8} {err : String} (c : Console)
    (hdec : env.jsonDecode p = Except.error err) :
    (Write env c p).1.maxLength = c.maxLength := by
  simp only [Write, hdec]

theorem foldl_max_le (l : List Nat) (a : Nat) : a ≤ l.foldl max a := by
  induction l generalizing a with
  | nil => exact Nat.le_refl a
  | cons x rest ih => exact Nat.le_trans (Nat.le_max_left a x) (ih (max a x))

theorem foldl_max_ge (l : List Nat) (a : Nat) : ∀ n ∈ l, n ≤ l.foldl max a := by
  induction l generalizing a with
  | nil => intro n hn; exact absurd hn (List.not_mem_nil n)
  | cons x rest ih =>
    intro n hn
    rcases List.mem_cons.mp hn with h | h
    · subst h
      exact Nat.le_trans (Nat.le_max_right a n) (foldl_max_le rest (max a n))
    · exact ih (max a x) n h

theorem foldl_max_mem (l : List Nat) (a : Nat) : l.foldl max a = a ∨ l.foldl max a ∈ l := by
  induction l generalizing a with
  | nil => exact Or.inl rfl
  | cons x rest ih =>
    rcases ih (max a x) with h | h
    · rcases Nat.le_total a x with hax | hax
      · right
        rw [List.foldl_cons, h, Nat.max_eq_right hax]
        exact List.mem_cons_self x rest
      · left
        rw [List.foldl_cons, h, Nat.max_eq_left hax]
    · exact Or.inr (List.mem_cons_of_mem x h)

theorem writeAll_maxLength (env : Env) (ps : List (List UInt8)) (c : Console) :
    (writeAll env c ps).maxLength = (decodedTagLengths env ps).foldl max c.maxLength := by
  induction ps generalizing c with
  | nil => rfl
  | cons p rest ih =>
    have hstep : writeAll env c (p :: rest) = writeAll env (Write env c p).1 rest := rfl
    rw [hstep, ih]
    cases hdec : env.jsonDecode p with
    | ok event =>
      have htags : decodedTagLengths env (p :: rest) =
          len (parseSource event) :: decodedTagLengths env rest := by
        simp [decodedTagLengths, List.filterMap_cons, hdec]
      rw [htags, List.foldl_cons, Write_maxLength_ok c hdec]
    | error err =>
      have htags : decodedTagLengths env (p :: rest) = decodedTagLengths env rest := by
        simp [decodedTagLengths, List.filterMap_cons, hdec]
      rw [htags, Write_maxLength_error c hdec]

/-- C19: on a console that starts with the width hint 0, after any sequence
of calls of `Write` the hint is the maximum of the byte lengths of the source
tags of the inputs that decoded, 0 when none did; a call that decodes leaves
it at the maximum of its old value and the length of the source tag of the
event, a call that fails to decode leaves it as it was, and no call lowers
it. -/
theorem writeAll_maxLength_maximum (env : Env) (out : List String) (ps : List (List UInt8)) :
    (writeAll env ⟨out, 0⟩ ps).maxLength = (decodedTagLengths env ps).foldl max 0 ∧
    (∀ n ∈ decodedTagLengths env ps, n ≤ (writeAll env ⟨out, 0⟩ ps).maxLength) ∧
    ((writeAll env ⟨out, 0⟩ ps).maxLength = 0 ∨
      (writeAll env ⟨out, 0⟩ ps).maxLength ∈ decodedTagLengths env ps) ∧
    (∀ (c : Console) (p : List UInt8) (event : Event), env.jsonDecode p = Except.ok event →
      (Write env c p).1.maxLength = max c.maxLength (len (parseSource event))) ∧
    (∀ (c : Console) (p : List UInt8) (err : String), env.jsonDecode p = Except.error err →
      (Write env c p).1.maxLength = c.maxLength) ∧
    (∀ (c : Console) (p : List UInt8), c.maxLength ≤ (Write env c p).1.maxLength) ∧
    (∀ (c : Console) (p : List UInt8) (rest : List (List UInt8)),
      writeAll env c (p :: rest) = writeAll env (Write env c p).1 rest) := by
  have hall := writeAll_maxLength env ps ⟨out, 0⟩
  refine ⟨hall, ?_, ?_, fun c p event h => Write_maxLength_ok c h,
    fun c p err h => Write_maxLength_error c h, ?_, fun _ _ _ => rfl⟩
  · rw [hall]
    exact foldl_max_ge _ _
  · rw [hall]
    exact foldl_max_mem _ _
  · intro c p
    cases hdec : env.jsonDecode p with
    | ok event =>
      rw [Write_maxLength_ok c hdec]
      exact Nat.le_max_left _ _
    | error err => rw [Write_maxLength_error c hdec]

/-- C19, at a sequence of four calls: a record of the component `engine`, a
record cut off in the middle, the empty record (source `system`) and a record
whose timestamp makes the call panic; the hint ends at 6. -/
theorem writeAll_maxLength_maximum_witness :
    decodedTagLengths stdEnv [buildFailed, truncatedRecord, emptyRecord, badTimestamp]
      = [6, 6, 6] ∧
    (writeAll stdEnv ⟨[], 0⟩ [buildFailed, truncatedRecord, emptyRecord, badTimestamp]).maxLength
      = 6 ∧
    decodedTagLengths stdEnv [truncatedRecord, longComponent] = [30] ∧
    (writeAll stdEnv ⟨[], 0⟩ [truncatedRecord, longComponent]).maxLength = 30 :=
  ⟨by decide,
   (writeAll_maxLength_maximum stdEnv []
      [buildFailed, truncatedRecord, emptyRecord, badTimestamp]).1.trans (by decide),
   by decide,
   (writeAll_maxLength_maximum stdEnv [] [truncatedRecord, longComponent]).1.trans (by decide)⟩

/-! ## The returned count -/

theorem bytes_append (s t : String) : bytes (s ++ t) = bytes s ++ bytes t := by
  simp [bytes, String.data_append]

theorem len_append (s t : String) : len (s ++ t) = len s + len t := by
  simp [len, bytes_append]

theorem len_line (s : String) : len (s ++ "\n") = len s + 1 := by
  rw [len_append]
  rfl

/-- C20: on a call of `Write` that decodes and renders, the returned count
and error are the answer of the sink `Out` to the expanded line followed by a
line feed; when the sink accepts every write in full the count is the byte
length of the expanded line plus one. It is not the length of the input: for
the empty record, of two bytes, the count is 40. -/
theorem Write_returned_count :
    (∀ (env : Env) (c : Console) (p : List UInt8) (event : Event) (text : String),
      env.jsonDecode p = Except.ok event →
      composed env event (parseSource event) = Outcome.ret text →
      (Write env c p).2 = Outcome.ret (env.outWrite c.Out (env.colorize text ++ "\n")) ∧
      (Write env c p).1.Out = c.Out ++ [env.colorize text ++ "\n"] ∧
      (Accepts env →
        (Write env c p).2 = Outcome.ret (len (env.colorize text) + 1, none))) ∧
    Accepts stdEnv ∧
    emptyRecord.length = 2 ∧
    (Write stdEnv ⟨[], 0⟩ emptyRecord).2 = Outcome.ret (40, none) ∧
    (∃ p n, (Write stdEnv ⟨[], 0⟩ p).2 = Outcome.ret (n, none) ∧ n ≠ p.length) := by
  refine ⟨?_, fun _ _ => rfl, by decide, by decide, emptyRecord, 40, by decide, by decide⟩
  intro env c p event text hdec hcomp
  rw [Write_of_composed c hdec hcomp]
  refine ⟨rfl, rfl, ?_⟩
  intro hacc
  rw [hacc c.Out (env.colorize text ++ "\n"), len_line]

/-- C20, at the record of the scenario: the sink gets 69 bytes and 69 is
returned, for an input of 80 bytes. -/
theorem Write_returned_count_witness :
    stdEnv.jsonDecode buildFailed =
      Except.ok [("level", Value.str "error"), ("message", Value.str "build failed"),
        ("error", Value.str "exit 1"), ("component", Value.str "engine")] ∧
    (Write stdEnv ⟨[], 0⟩ buildFailed).2 =
      Outcome.ret (len (stdEnv.colorize
        "??? [red]ERR[reset] [light_yellow]engine | [reset][red]build failed: exit 1[reset]")
        + 1, none) ∧
    len (stdEnv.colorize
      "??? [red]ERR[reset] [light_yellow]engine | [reset][red]build failed: exit 1[reset]") + 1
      = 69 ∧
    buildFailed.length = 80 :=
  ⟨rfl,
   (Write_returned_count.1 stdEnv ⟨[], 0⟩ buildFailed
      [("level", Value.str "error"), ("message", Value.str "build failed"),
        ("error", Value.str "exit 1"), ("component", Value.str "engine")]
      "??? [red]ERR[reset] [light_yellow]engine | [reset][red]build failed: exit 1[reset]"
      rfl (by decide)).2.2 (fun _ _ => rfl),
   by decide, by decide⟩

/-! ## The markup expansion keeps what is not markup -/

theorem matchTag_some {cs name : List Char} (h : matchTag cs = some name) :
    ∃ rest, cs = '[' :: (name ++ ']' :: rest) ∧ name ≠ [] ∧ ∀ c ∈ name, isTagChar c = true := by
  unfold matchTag at h
  split at h
  · rename_i cs1
    split at h
    · rename_i c name1 rest hname hrest
      simp only [Option.some.injEq] at h
      subst h
      refine ⟨rest, ?_, List.cons_ne_nil _ _, ?_⟩
      · rw [← hname, ← hrest, List.takeWhile_append_dropWhile]
      · intro x hx
        rw [← hname] at hx
        exact List.mem_takeWhile_imp hx
    · exact absurd h (by simp)
  · exact absurd h (by simp)

theorem colorLoop_nil (skip : Nat) (colored : Bool) (out : List Char) :
    colorLoop [] skip colored out = (out, colored) := by
  cases skip <;> rfl

theorem colorLoop_skip (c : Char) (cs : List Char) (skip : Nat) (colored : Bool)
    (out : List Char) :
    colorLoop (c :: cs) (skip + 1) colored out = colorLoop cs skip colored out := rfl

theorem colorLoop_zero (c : Char) (cs : List Char) (colored : Bool) (out : List Char) :
    colorLoop (c :: cs) 0 colored out =
      match matchTag (c :: cs) with
      | some name =>
        match DefaultColors.lookup (String.mk name) with
        | some code =>
          colorLoop cs (name.length + 1) true (out ++ ("\x1b[" ++ code ++ "m").data)
        | none => colorLoop cs (name.length + 1) colored (out ++ '[' :: name ++ [']'])
      | none => colorLoop cs 0 colored (out ++ [c]) := rfl

theorem colorLoop_out (cs : List Char) :
    ∀ (skip : Nat) (colored : Bool) (out : List Char),
      colorLoop cs skip colored out =
        (out ++ (colorLoop cs skip colored []).1, (colorLoop cs skip colored []).2) := by
  induction cs with
  | nil =>
    intro skip colored out
    simp [colorLoop_nil]
  | cons c cs ih =>
    intro skip colored out
    cases skip with
    | succ skip =>
      rw [colorLoop_skip, colorLoop_skip]
      exact ih skip colored out
    | zero =>
      rw [colorLoop_zero, colorLoop_zero]
      split
      · split
        · rw [ih]
          conv_rhs => rw [ih]
          simp [List.append_assoc]
        · rw [ih]
          conv_rhs => rw [ih]
          simp [List.append_assoc]
      · rw [ih]
        conv_rhs => rw [ih]
        simp [List.append_assoc]

theorem lookup_mem {key value : String} :
    ∀ {table : List (String × String)}, table.lookup key = some value →
      ∃ name, (name, value) ∈ table := by
  intro table
  induction table with
  | nil => intro h; exact absurd h (by simp [List.lookup])
  | cons kv rest ih =>
    intro h
    obtain ⟨k, v⟩ := kv
    rw [List.lookup_cons] at h
    split at h
    · simp only [Option.some.injEq] at h
      exact ⟨k, h ▸ List.mem_cons_self _ _⟩
    · obtain ⟨name, hname⟩ := ih h
      exact ⟨name, List.mem_cons_of_mem _ hname⟩

theorem codes_no_lineFeed :
    ∀ kv ∈ DefaultColors, (("\x1b[" ++ kv.2 ++ "m").data).count (Char.ofNat 10) = 0 := by
  decide

theorem tag_no_lineFeed {name : List Char} (h : ∀ c ∈ name, isTagChar c = true) :
    name.count (Char.ofNat 10) = 0 := by
  rw [List.count_eq_zero]
  intro hmem
  exact absurd (h _ hmem) (by decide)

theorem colorLoop_lineFeeds (cs : List Char) :
    ∀ (skip : Nat) (colored : Bool) (out : List Char),
      (∀ x ∈ cs.take skip, x ≠ Char.ofNat 10) →
      (colorLoop cs skip colored out).1.count (Char.ofNat 10) =
        out.count (Char.ofNat 10) + cs.count (Char.ofNat 10) := by
  induction cs with
  | nil =>
    intro skip colored out _
    simp [colorLoop_nil]
  | cons c cs ih =>
    intro skip colored out hskip
    cases skip with
    | succ skip =>
      rw [colorLoop_skip, ih skip colored out
        (fun x hx => hskip x (by rw [List.take_succ_cons]; exact List.mem_cons_of_mem _ hx))]
      have hc : c ≠ Char.ofNat 10 := hskip c (by rw [List.take_succ_cons]; exact List.mem_cons_self _ _)
      rw [List.count_cons_of_ne hc.symm]
    | zero =>
      rw [colorLoop_zero]
      split
      · rename_i name hmatch
        obtain ⟨rest, hcs, -, htag⟩ := matchTag_some hmatch
        simp only [List.cons.injEq] at hcs
        obtain ⟨hc, hcs⟩ := hcs
        have hname := tag_no_lineFeed htag
        have htake : ∀ x ∈ cs.take (name.length + 1), x ≠ Char.ofNat 10 := by
          intro x hx
          rw [hcs, List.take_append_eq_append_take] at hx
          simp only [List.take_of_length_le (Nat.le_succ name.length), List.mem_append] at hx
          rcases hx with hx | hx
          · intro hxe
            exact absurd (htag x hx) (by rw [hxe]; decide)
          · have : name.length + 1 - name.length = 1 := by omega
            rw [this] at hx
            simp only [List.take_succ_cons, List.take_zero, List.mem_singleton] at hx
            rw [hx]
            decide
        have hcount : (c :: cs).count (Char.ofNat 10) = cs.count (Char.ofNat 10) := by
          rw [hc]
          exact List.count_cons_of_ne (by decide) _
        split
        · rename_i code hcode
          obtain ⟨key, hkey⟩ := lookup_mem hcode
          rw [ih _ _ _ htake, List.count_append, codes_no_lineFeed _ hkey, hcount]
          omega
        · rw [ih _ _ _ htake, hcount]
          simp [List.count_append, hname, List.count_cons]
      · rw [ih 0 colored (out ++ [c]) (by simp)]
        simp only [List.count_append, List.count_cons, List.count_nil]
        omega

theorem colorizeColor_lineFeeds (text : String) :
    lineFeeds (colorizeColor text) = lineFeeds text := by
  have h := colorLoop_lineFeeds text.data 0 false [] (by simp)
  unfold colorizeColor lineFeeds
  cases hloop : colorLoop text.data 0 false [] with
  | mk out colored =>
    rw [hloop] at h
    simp only [List.count_nil, Nat.zero_add] at h
    cases colored
    · simp [String.data_append, h]
    · simp only [String.data_append, List.count_append, h, if_true]
      rfl

theorem lineFeeds_append (s t : String) : lineFeeds (s ++ t) = lineFeeds s + lineFeeds t := by
  simp [lineFeeds, String.data_append, List.count_append]

theorem formatLevel_mem (env : Env) (event : Event) :
    formatLevel env event ∈
      ["[magenta]TRC[reset]", "[yellow]DBG[reset]", "[green]INF[reset]", "[red]WRN[reset]",
       "[red]ERR[reset]", "[red]FTL[reset]", "[red]PNC[reset]", "[bold]???[reset]"] := by
  unfold formatLevel
  simp only
  repeat' split
  all_goals simp

theorem hashColor_mem {sz : IntSize} {text color : String}
    (h : hashColor sz text = Outcome.ret color) : color ∈ colors := by
  unfold hashColor at h
  simp only at h
  split at h
  · exact Outcome.noConfusion h
  · split at h
    · rename_i c hc
      simp only [Outcome.ret.injEq] at h
      exact h ▸ List.get?_mem hc
    · exact Outcome.noConfusion h

theorem segments_lineFeeds {env : Env} {event : Event} {color : String} (ts source : String)
    (hcolor : color ∈ colors) :
    lineFeeds (segments ts (formatLevel env event) color source (formatMessage env event)
        (formatFields env event)) =
      lineFeeds ts + lineFeeds source + lineFeeds (formatMessage env event) +
        lineFeeds (formatFields env event) := by
  have hbadge : ∀ b ∈ ["[magenta]TRC[reset]", "[yellow]DBG[reset]", "[green]INF[reset]",
      "[red]WRN[reset]", "[red]ERR[reset]", "[red]FTL[reset]", "[red]PNC[reset]",
      "[bold]???[reset]"], lineFeeds b = 0 := by decide
  have hcol : ∀ c ∈ colors, lineFeeds c = 0 := by decide
  have h1 : lineFeeds " " = 0 := by decide
  have h2 : lineFeeds "[" = 0 := by decide
  have h3 : lineFeeds "]" = 0 := by decide
  have h4 : lineFeeds " | [reset]" = 0 := by decide
  simp only [segments, lineFeeds_append, hbadge _ (formatLevel_mem env event),
    hcol _ hcolor, h1, h2, h3, h4]
  omega

/-- C17, refuted as stated: the message `first`, line feed, `second` keeps its
line feed, so the text handed to the sink for the record holds two line
terminators, one of them in the middle. -/
theorem Write_two_lines_counterexample :
    stdEnv.jsonDecode twoLineRecord = Except.ok [("message", Value.str "first\nsecond")] ∧
    (Write stdEnv ⟨[], 0⟩ twoLineRecord).1.Out =
      ["??? \x1b[33mDBG\x1b[0m \x1b[36msystem | \x1b[0m\x1b[2mfirst\nsecond\x1b[0m\x1b[0m\n"] ∧
    (Write stdEnv ⟨[], 0⟩ twoLineRecord).2 = Outcome.ret (60, none) ∧
    lineFeeds
      "??? \x1b[33mDBG\x1b[0m \x1b[36msystem | \x1b[0m\x1b[2mfirst\nsecond\x1b[0m\x1b[0m\n" = 2 := by
  refine ⟨rfl, by decide, by decide, by decide⟩

/-- C17, amended: a call of `Write` that decodes and renders hands the sink
exactly one text, which ends with a line terminator. With the markup
expansion of `colorstring`, the text holds besides it as many line
terminators as the timestamp, the source tag, the message segment and the
fields segment hold together: the badge, the colour and the expansion add and
remove none, and a line terminator inside the message, the error, the
component or a field value is written as it is. -/
theorem Write_single_write (env : Env) (c : Console) (p : List UInt8) (event : Event)
    (ts color : String)
    (hdec : env.jsonDecode p = Except.ok event)
    (hts : formatTimestamp env event = Outcome.ret ts)
    (hcol : hashColor env.intSize (parseSource event) = Outcome.ret color) :
    (Write env c p).1.Out =
      c.Out ++ [env.colorize (segments ts (formatLevel env event) color (parseSource event)
        (formatMessage env event) (formatFields env event)) ++ "\n"] ∧
    lineFeeds (env.colorize (segments ts (formatLevel env event) color (parseSource event)
        (formatMessage env event) (formatFields env event)) ++ "\n") =
      lineFeeds (env.colorize (segments ts (formatLevel env event) color (parseSource event)
        (formatMessage env event) (formatFields env event))) + 1 ∧
    (env.colorize = colorizeColor →
      lineFeeds (env.colorize (segments ts (formatLevel env event) color (parseSource event)
          (formatMessage env event) (formatFields env event)) ++ "\n") =
        lineFeeds ts + lineFeeds (parseSource event) + lineFeeds (formatMessage env event) +
          lineFeeds (formatFields env event) + 1) := by
  have hnl : lineFeeds "\n" = 1 := by decide
  refine ⟨?_, ?_, ?_⟩
  · rw [Write_of_composed c hdec (composed_of_parts hts hcol)]
  · rw [lineFeeds_append, hnl]
  · intro hcz
    rw [lineFeeds_append, hnl, hcz, colorizeColor_lineFeeds,
      segments_lineFeeds ts (parseSource event) (hashColor_mem hcol)]

/-- C17, amended, at the record of the scenario: one text is written and it
holds one line terminator. -/
theorem Write_single_write_witness :
    stdEnv.jsonDecode buildFailed =
      Except.ok [("level", Value.str "error"), ("message", Value.str "build failed"),
        ("error", Value.str "exit 1"), ("component", Value.str "engine")] ∧
    (Write stdEnv ⟨["earlier line\n"], 9⟩ buildFailed).1.Out =
      ["earlier line\n",
       stdEnv.colorize (segments "???" "[red]ERR[reset]" "light_yellow" "engine"
         "[red]build failed: exit 1[reset]" "") ++ "\n"] ∧
    lineFeeds (stdEnv.colorize (segments "???" "[red]ERR[reset]" "light_yellow" "engine"
         "[red]build failed: exit 1[reset]" "") ++ "\n") = 1 :=
  ⟨rfl,
   (Write_single_write stdEnv ⟨["earlier line\n"], 9⟩ buildFailed
      [("level", Value.str "error"), ("message", Value.str "build failed"),
        ("error", Value.str "exit 1"), ("component", Value.str "engine")]
      "???" "light_yellow" rfl (by decide) (by decide)).1,
   by decide⟩

/-! ## The badge in the rendered line -/

theorem colorLoop_prefix (r : List Char) :
    ∀ (pre : List Char) (skip : Nat) (colored : Bool) (out : List Char),
      skip ≤ pre.length →
      ∃ (colored' : Bool) (out' : List Char),
        colorLoop (pre ++ '[' :: r) skip colored out =
          colorLoop ('[' :: r) 0 colored' (out ++ out') := by
  intro pre
  induction pre with
  | nil =>
    intro skip colored out hskip
    have h0 : skip = 0 := by simpa using hskip
    subst h0
    exact ⟨colored, [], by simp⟩
  | cons c cs ih =>
    intro skip colored out hskip
    rw [List.cons_append]
    cases skip with
    | succ skip =>
      rw [colorLoop_skip]
      exact ih skip colored out (by simpa using hskip)
    | zero =>
      rw [colorLoop_zero]
      split
      · rename_i name hmatch
        obtain ⟨rest, hcs, -, htag⟩ := matchTag_some hmatch
        simp only [List.cons.injEq] at hcs
        have hlen : name.length + 1 ≤ cs.length := by
          rcases List.append_eq_append_iff.mp hcs.2 with ⟨a, ha, hb⟩ | ⟨b, ha, hb⟩
          · cases a with
            | nil =>
              simp only [List.nil_append, List.cons.injEq] at hb
              exact absurd hb.1 (by decide)
            | cons x a =>
              simp only [List.cons_append, List.cons.injEq] at hb
              have hx : isTagChar x = true := htag x (by rw [ha]; simp)
              rw [← hb.1] at hx
              exact absurd hx (by decide)
          · cases b with
            | nil =>
              simp only [List.nil_append, List.cons.injEq] at hb
              exact absurd hb.1 (by decide)
            | cons y b =>
              rw [ha]
              simp
        split
        · rename_i code hcode
          obtain ⟨colored', out', h⟩ := ih (name.length + 1) true
            (out ++ ("\x1b[" ++ code ++ "m").data) hlen
          exact ⟨colored', ("\x1b[" ++ code ++ "m").data ++ out',
            by rw [h, List.append_assoc]⟩
        · obtain ⟨colored', out', h⟩ := ih (name.length + 1) colored
            (out ++ '[' :: name ++ [']']) hlen
          exact ⟨colored', ('[' :: name ++ [']']) ++ out', by rw [h]; simp [List.append_assoc]⟩
      · obtain ⟨colored', out', h⟩ := ih 0 colored (out ++ [c]) (Nat.zero_le _)
        exact ⟨colored', [c] ++ out', by rw [h, List.append_assoc]⟩

theorem colorLoop_keeps (tagRest produced : List Char)
    (heval : ∀ (post : List Char) (colored : Bool),
      colorLoop ('[' :: tagRest ++ post) 0 colored [] = colorLoop post 0 true produced)
    (pre post : List Char) :
    ∃ (before after : List Char) (flag : Bool),
      colorLoop (pre ++ ('[' :: tagRest ++ post)) 0 false [] =
        (before ++ produced ++ after, flag) := by
  obtain ⟨colored', out', h⟩ :=
    colorLoop_prefix (tagRest ++ post) pre 0 false [] (Nat.zero_le _)
  rw [List.cons_append, h, colorLoop_out, ← List.cons_append, heval, colorLoop_out]
  exact ⟨[] ++ out', (colorLoop post 0 true []).1, (colorLoop post 0 true []).2, by simp⟩

theorem colorizeColor_keeps (tagRest produced : List Char)
    (heval : ∀ (post : List Char) (colored : Bool),
      colorLoop ('[' :: tagRest ++ post) 0 colored [] = colorLoop post 0 true produced)
    (pre post : String) :
    ∃ before after : String,
      colorizeColor (pre ++ String.mk ('[' :: tagRest) ++ post) =
        before ++ String.mk produced ++ after := by
  obtain ⟨before, after, flag, h⟩ := colorLoop_keeps tagRest produced heval pre.data post.data
  have hdata : (pre ++ String.mk ('[' :: tagRest) ++ post).data =
      pre.data ++ ('[' :: tagRest ++ post.data) := by
    simp [String.data_append, List.append_assoc]
  refine ⟨String.mk before, String.mk after ++ (if flag then "\x1b[0m" else ""), ?_⟩
  unfold colorizeColor
  rw [hdata, h]
  apply String.ext
  simp [String.data_append, List.append_assoc]

theorem expansion_keeps_badge (pre post markup letters : String)
    (h : (markup, letters) ∈
      [("[magenta]TRC[reset]", "TRC"), ("[yellow]DBG[reset]", "DBG"),
       ("[green]INF[reset]", "INF"), ("[red]WRN[reset]", "WRN"), ("[red]ERR[reset]", "ERR"),
       ("[red]FTL[reset]", "FTL"), ("[red]PNC[reset]", "PNC")]) :
    ∃ before after : String,
      colorizeColor (pre ++ markup ++ post) = before ++ letters ++ after := by
  simp only [List.mem_cons, Prod.mk.injEq, List.mem_singleton, List.not_mem_nil, or_false] at h
  rcases h with ⟨rfl, rfl⟩ | ⟨rfl, rfl⟩ | ⟨rfl, rfl⟩ | ⟨rfl, rfl⟩ | ⟨rfl, rfl⟩ | ⟨rfl, rfl⟩ |
    ⟨rfl, rfl⟩
  · obtain ⟨before, after, h⟩ := colorizeColor_keeps "magenta]TRC[reset]".data
      "\x1b[35mTRC\x1b[0m".data (fun _ _ => rfl) pre post
    exact ⟨before ++ "\x1b[35m", "\x1b[0m" ++ after, by
      rw [show ("[magenta]TRC[reset]" : String) = String.mk ('[' :: "magenta]TRC[reset]".data)
        from rfl, h]
      apply String.ext
      simp [String.data_append, List.append_assoc]⟩
  · obtain ⟨before, after, h⟩ := colorizeColor_keeps "yellow]DBG[reset]".data
      "\x1b[33mDBG\x1b[0m".data (fun _ _ => rfl) pre post
    exact ⟨before ++ "\x1b[33m", "\x1b[0m" ++ after, by
      rw [show ("[yellow]DBG[reset]" : String) = String.mk ('[' :: "yellow]DBG[reset]".data)
        from rfl, h]
      apply String.ext
      simp [String.data_append, List.append_assoc]⟩
  · obtain ⟨before, after, h⟩ := colorizeColor_keeps "green]INF[reset]".data
      "\x1b[32mINF\x1b[0m".data (fun _ _ => rfl) pre post
    exact ⟨before ++ "\x1b[32m", "\x1b[0m" ++ after, by
      rw [show ("[green]INF[reset]" : String) = String.mk ('[' :: "green]INF[reset]".data)
        from rfl, h]
      apply String.ext
      simp [String.data_append, List.append_assoc]⟩
  · obtain ⟨before, after, h⟩ := colorizeColor_keeps "red]WRN[reset]".data
      "\x1b[31mWRN\x1b[0m".data (fun _ _ => rfl) pre post
    exact ⟨before ++ "\x1b[31m", "\x1b[0m" ++ after, by
      rw [show ("[red]WRN[reset]" : String) = String.mk ('[' :: "red]WRN[reset]".data)
        from rfl, h]
      apply String.ext
      simp [String.data_append, List.append_assoc]⟩
  · obtain ⟨before, after, h⟩ := colorizeColor_keeps "red]ERR[reset]".data
      "\x1b[31mERR\x1b[0m".data (fun _ _ => rfl) pre post
    exact ⟨before ++ "\x1b[31m", "\x1b[0m" ++ after, by
      rw [show ("[red]ERR[reset]" : String) = String.mk ('[' :: "red]ERR[reset]".data)
        from rfl, h]
      apply String.ext
      simp [String.data_append, List.append_assoc]⟩
  · obtain ⟨before, after, h⟩ := colorizeColor_keeps "red]FTL[reset]".data
      "\x1b[31mFTL\x1b[0m".data (fun _ _ => rfl) pre post
    exact ⟨before ++ "\x1b[31m", "\x1b[0m" ++ after, by
      rw [show ("[red]FTL[reset]" : String) = String.mk ('[' :: "red]FTL[reset]".data)
        from rfl, h]
      apply String.ext
      simp [String.data_append, List.append_assoc]⟩
  · obtain ⟨before, after, h⟩ := colorizeColor_keeps "red]PNC[reset]".data
      "\x1b[31mPNC\x1b[0m".data (fun _ _ => rfl) pre post
    exact ⟨before ++ "\x1b[31m", "\x1b[0m" ++ after, by
      rw [show ("[red]PNC[reset]" : String) = String.mk ('[' :: "red]PNC[reset]".data)
        from rfl, h]
      apply String.ext
      simp [String.data_append, List.append_assoc]⟩

theorem formatLevel_of_badge {env : Env} {event : Event} {name badge : String}
    (hlevel : index event env.LevelFieldName = some (Value.str name))
    (hbadge : (name, badge) ∈ badgeOf) :
    ∃ markup, formatLevel env event = "[" ++ markup ++ "]" ++ badge ++ "[reset]" ∧
      (formatLevel env event, badge) ∈
        [("[magenta]TRC[reset]", "TRC"), ("[yellow]DBG[reset]", "DBG"),
         ("[green]INF[reset]", "INF"), ("[red]WRN[reset]", "WRN"), ("[red]ERR[reset]", "ERR"),
         ("[red]FTL[reset]", "FTL"), ("[red]PNC[reset]", "PNC")] := by
  obtain ⟨h1, h2, h3, h4, h5, h6, h7⟩ := formatLevel_badges_aux env event
  simp only [badgeOf, List.mem_cons, Prod.mk.injEq, List.mem_singleton, List.not_mem_nil,
    or_false] at hbadge
  rcases hbadge with ⟨rfl, rfl⟩ | ⟨rfl, rfl⟩ | ⟨rfl, rfl⟩ | ⟨rfl, rfl⟩ | ⟨rfl, rfl⟩ |
    ⟨rfl, rfl⟩ | ⟨rfl, rfl⟩
  · exact ⟨"magenta", by rw [h1 hlevel]; rfl, by rw [h1 hlevel]; simp⟩
  · exact ⟨"yellow", by rw [h2 hlevel]; rfl, by rw [h2 hlevel]; simp⟩
  · exact ⟨"green", by rw [h3 hlevel]; rfl, by rw [h3 hlevel]; simp⟩
  · exact ⟨"red", by rw [h4 hlevel]; rfl, by rw [h4 hlevel]; simp⟩
  · exact ⟨"red", by rw [h5 hlevel]; rfl, by rw [h5 hlevel]; simp⟩
  · exact ⟨"red", by rw [h6 hlevel]; rfl, by rw [h6 hlevel]; simp⟩
  · exact ⟨"red", by rw [h7 hlevel]; rfl, by rw [h7 hlevel]; simp⟩

set_option maxRecDepth 100000 in
/-- C16, refuted as stated: for the record of level error whose message is the
text `ERR`, the line written shows `ERR` twice, once as the badge and once as
the message. -/
theorem Write_badge_twice_counterexample :
    stdEnv.jsonDecode badgeInMessage =
      Except.ok [("level", Value.str "error"), ("message", Value.str "ERR")] ∧
    (Write stdEnv ⟨[], 0⟩ badgeInMessage).1.Out =
      ["??? \x1b[31mERR\x1b[0m \x1b[36msystem | \x1b[0m\x1b[31mERR\x1b[0m\x1b[0m\n"] ∧
    occurrences "ERR".data
      "??? \x1b[31mERR\x1b[0m \x1b[36msystem | \x1b[0m\x1b[31mERR\x1b[0m\x1b[0m\n".data = 2 := by
  refine ⟨rfl, by decide, by decide⟩

/-- C16, amended: for a decodable record whose level is one of the seven
severity names and which renders, the composed line has the badge of the
level, between its markup, right after the timestamp and a space; with the
markup expansion of `colorstring` the line handed to the sink contains the
three letters of the badge. It may contain them more than once, when another
segment holds them too. -/
theorem Write_shows_badge (env : Env) (c : Console) (p : List UInt8) (event : Event)
    (ts color name badge : String)
    (hdec : env.jsonDecode p = Except.ok event)
    (hts : formatTimestamp env event = Outcome.ret ts)
    (hcol : hashColor env.intSize (parseSource event) = Outcome.ret color)
    (hlevel : index event env.LevelFieldName = some (Value.str name))
    (hbadge : (name, badge) ∈ badgeOf) :
    (∃ markup rest : String,
      composed env event (parseSource event) =
        Outcome.ret (ts ++ " " ++ ("[" ++ markup ++ "]" ++ badge ++ "[reset]") ++ rest)) ∧
    (env.colorize = colorizeColor →
      ∃ before after : String,
        (Write env c p).1.Out = c.Out ++ [before ++ badge ++ after]) := by
  obtain ⟨markup, hmarkup, hmem⟩ := formatLevel_of_badge hlevel hbadge
  have hcomp := @composed_of_parts env event (parseSource event) ts color hts hcol
  have hseg : segments ts (formatLevel env event) color (parseSource event)
      (formatMessage env event) (formatFields env event) =
      ts ++ " " ++ formatLevel env event ++
        (" " ++ "[" ++ color ++ "]" ++ parseSource event ++ " | [reset]" ++
          formatMessage env event ++ formatFields env event) := by
    simp only [segments, String.append_assoc]
  constructor
  · refine ⟨markup, " " ++ "[" ++ color ++ "]" ++ parseSource event ++ " | [reset]" ++
      formatMessage env event ++ formatFields env event, ?_⟩
    rw [hcomp, hseg, hmarkup]
  · intro hcz
    obtain ⟨before, after, hkeep⟩ := expansion_keeps_badge (ts ++ " ")
      (" " ++ "[" ++ color ++ "]" ++ parseSource event ++ " | [reset]" ++
        formatMessage env event ++ formatFields env event) (formatLevel env event) badge hmem
    refine ⟨before, after ++ "\n", ?_⟩
    rw [Write_of_composed c hdec hcomp, hcz, hseg, hkeep, String.append_assoc]

/-- C16, amended, at the record of the scenario: the line written contains
`ERR`. -/
theorem Write_shows_badge_witness :
    stdEnv.jsonDecode buildFailed =
      Except.ok [("level", Value.str "error"), ("message", Value.str "build failed"),
        ("error", Value.str "exit 1"), ("component", Value.str "engine")] ∧
    ("error", "ERR") ∈ badgeOf ∧
    (∃ before after : String,
      (Write stdEnv ⟨[], 0⟩ buildFailed).1.Out = [] ++ [before ++ "ERR" ++ after]) ∧
    (Write stdEnv ⟨[], 0⟩ buildFailed).1.Out =
      ["??? \x1b[31mERR\x1b[0m \x1b[93mengine | \x1b[0m\x1b[31mbuild failed: exit 1\x1b[0m\x1b[0m\n"] :=
  ⟨rfl, by decide,
   (Write_shows_badge stdEnv ⟨[], 0⟩ buildFailed
      [("level", Value.str "error"), ("message", Value.str "build failed"),
        ("error", Value.str "exit 1"), ("component", Value.str "engine")]
      "???" "light_yellow" "error" "ERR" rfl (by decide) (by decide) rfl (by decide)).2 rfl,
   by decide⟩

end Logger
